import Mathlib

/-!
Verification of the ccpm document-model core: the frontmatter codec,
document validators, section extractor, and the issue/epic close workflow
scripts.  Python strings are embedded as `List Char`; Python `dict`s as
insertion-ordered association lists; Python IEEE-754 float arithmetic (used
once, for the epic progress percentage) as exact integer rounding of
binary64 significands.
-/

set_option maxRecDepth 100000

namespace CCPM

/-- Convert a Lean string literal to the `List Char` representation used
throughout this development. -/
def str (s : String) : List Char := s.data

/-- The ASCII whitespace characters stripped by Python's `str.strip()`
(the model is restricted to ASCII whitespace). -/
def isPyWS (c : Char) : Bool :=
  c = ' ' || c = '\t' || c = '\n' || c = '\x0d' || c = '\x0b' || c = '\x0c'

/-- The frontmatter delimiter `---`. -/
def dashes : List Char := str ("---")

/-- Python `s.startswith(p)`. -/
def pyStartsWith (p s : List Char) : Bool := List.isPrefixOf p s

/-- Left part of Python `str.strip()`: drop leading whitespace. -/
def pyStripL (s : List Char) : List Char := s.dropWhile isPyWS

/-- Right part of Python `str.strip()`: drop trailing whitespace. -/
def pyStripR (s : List Char) : List Char := (s.reverse.dropWhile isPyWS).reverse

/-- Python `str.strip()` (ASCII whitespace model). -/
def pyStrip (s : List Char) : List Char := pyStripR (pyStripL s)

/-- Split off the text before and after the first occurrence of `pat`
(non-overlapping, leftmost): the engine behind Python `str.split(pat, n)`.
Returns `none` when `pat` does not occur. -/
def splitFirst (pat : List Char) (s : List Char) : Option (List Char × List Char) :=
  if List.isPrefixOf pat s then some ([], s.drop pat.length)
  else
    match s with
    | [] => none
    | c :: t => (splitFirst pat t).map (fun p => (c :: p.1, p.2))

/-- Python `s.split(pat, 2)`: at most three parts. -/
def pySplit2 (pat : List Char) (s : List Char) : List (List Char) :=
  match splitFirst pat s with
  | none => [s]
  | some (b1, r1) =>
    match splitFirst pat r1 with
    | none => [b1, r1]
    | some (b2, r2) => [b1, b2, r2]

/-- Python `s.split(sep)` on a single separator character, no maxsplit. -/
def splitCh (sep : Char) : List Char → List (List Char)
  | [] => [[]]
  | c :: t =>
    if c = sep then [] :: splitCh sep t
    else (c :: (splitCh sep t).headI) :: (splitCh sep t).tail

/-- Python `s.split('\n')` (no maxsplit). -/
def splitNl : List Char → List (List Char) := splitCh '\n'

/-- Insertion-ordered dictionary update, as for a Python `dict`:
an existing key keeps its position and gets the new value, a fresh key is
appended. -/
def dinsert (m : List (List Char × List Char)) (k v : List Char) :
    List (List Char × List Char) :=
  if m.any (fun p => p.1 = k) then
    m.map (fun p => if p.1 = k then (k, v) else p)
  else m ++ [(k, v)]

/-- Dictionary lookup. -/
def dlookup (k : List Char) : List (List Char × List Char) → Option (List Char)
  | [] => none
  | p :: t => if p.1 = k then some p.2 else dlookup k t

/-- Model of `ContentExtractor.extract_frontmatter` (src/aipm/utils/helpers.py):
returns `{}` unless the text starts with `---` and splits on `---` into at
least three parts; otherwise builds a dict from the `key: value` lines of
the stripped header segment, skipping lines without a colon. -/
def extract_frontmatter (content : List Char) : List (List Char × List Char) :=
  if ¬ pyStartsWith dashes content then []
  else
    match pySplit2 dashes content with
    | [_, fm, _] =>
      (splitNl (pyStrip fm)).foldl
        (fun m line =>
          match splitFirst (str (":")) line with
          | some (k, v) => dinsert m (pyStrip k) (pyStrip v)
          | none => m)
        []
    | _ => []

/-- Python `'\n'.join(parts)`. -/
def joinNl : List (List Char) → List Char
  | [] => []
  | [l] => l
  | l :: ls => l ++ '\n' :: joinNl ls

/-- Model of `ContentFormatter.format_frontmatter` (src/aipm/utils/helpers.py):
`'\n'.join(['---'] + ['k: v' per entry] + ['---'])`. -/
def format_frontmatter (data : List (List Char × List Char)) : List Char :=
  joinNl ([dashes] ++ data.map (fun p => p.1 ++ ':' :: ' ' :: p.2) ++ [dashes])

/-- The serialized document form stated by the spec and produced by the
callers of `format_frontmatter`: header block, blank line, body
(`'\n'.join([format_frontmatter(fields), '', body])`). -/
def serializeDoc (data : List (List Char × List Char)) (body : List Char) :
    List Char :=
  joinNl [format_frontmatter data, [], body]

/-- Modelled from the spec: the body half of `parse(text)`, which has no
counterpart function in the source (only the field half,
`extract_frontmatter`, exists).  Everything after the second delimiter is
the body, with the newline closing the delimiter line and a single leading
blank line trimmed if present. -/
def specBodyTrim (rest : List Char) : List Char :=
  if pyStartsWith (str ("\n\n")) rest then rest.drop 2
  else if pyStartsWith (str ("\n")) rest then rest.drop 1
  else rest

/-- The codec's `parse(text) -> (fields, body)`: fields from the source's
`extract_frontmatter`; body modelled from the spec (`specBodyTrim`).  A text
without the `---` prefix, or without a second delimiter, is all body. -/
def parseDoc (content : List Char) :
    List (List Char × List Char) × List Char :=
  if ¬ pyStartsWith dashes content then ([], content)
  else
    match pySplit2 dashes content with
    | [_, _, rest] => (extract_frontmatter content, specBodyTrim rest)
    | _ => ([], content)

/-- Outcome of a frontmatter validation, after the spec's error taxonomy. -/
inductive VResult where
  | ok
  | missingFrontmatter
  | malformedFrontmatter
  | missingFields (fields : List (List Char))
  deriving DecidableEq, Repr

/-- Model of `BaseValidator.validate_frontmatter` (src/aipm/core/base.py): requires
the `---` prefix and at least two delimiter occurrences, then scans the
required fields in order and fails on the FIRST whose `field:` string is
not a substring of the stripped header segment. -/
def validate_frontmatter (content : List Char) (required : List (List Char)) :
    VResult :=
  if ¬ pyStartsWith dashes content then .missingFrontmatter
  else
    match pySplit2 dashes content with
    | [_, fm, _] =>
      match required.find?
          (fun f => (splitFirst (f ++ [':']) (pyStrip fm)).isNone) with
      | some f => .missingFields [f]
      | none => .ok
    | _ => .malformedFrontmatter

/-- Model of `validate_prd_frontmatter` (src/prd_parse.py): same delimiter checks on
the unstripped header segment, but with the fixed required list
`name, description, status, created` and all missing fields aggregated into
one result. -/
def validate_prd_frontmatter (content : List Char) : VResult :=
  if ¬ pyStartsWith dashes content then .missingFrontmatter
  else
    match pySplit2 dashes content with
    | [_, fm, _] =>
      match [str ("name:"), str ("description:"), str ("status:"),
          str ("created:")].filter (fun f => (splitFirst f fm).isNone) with
      | [] => .ok
      | missing => .missingFields (missing.map (fun f => f.dropLast))
    | _ => .malformedFrontmatter

/-- ASCII lowercase mapping (model of `re.IGNORECASE` case folding). -/
def lowerAscii (c : Char) : Char :=
  if 'A' ≤ c && c ≤ 'Z' then Char.ofNat (c.toNat + 32) else c

/-- Case-insensitive character equality. -/
def ciEq (a b : Char) : Bool := lowerAscii a = lowerAscii b

/-- Case-insensitive literal match of `name` against the front of `s`. -/
def ciMatchFront : List Char → List Char → Bool
  | [], _ => true
  | _ :: _, [] => false
  | a :: as, b :: bs => ciEq a b && ciMatchFront as bs

/-- Index of the last `'\n'` in a list, if any. -/
def lastNl : List Char → Option Nat
  | [] => none
  | c :: t =>
    match lastNl t with
    | some i => some (i + 1)
    | none => if c = '\n' then some 0 else none

/-- The lazy `(.*?)(?=\n##|$)` tail of the section regex: consume characters
until the suffix starts with `\n##`, is empty, or is a single trailing
newline (where `$` matches). -/
def lazyGroup : List Char → List Char
  | [] => []
  | c :: t =>
    if c = '\n' && t.isEmpty then []
    else if pyStartsWith (str ("\n##")) (c :: t) then [] else c :: lazyGroup t

/-- Backtracking over the greedy `\s+` after `##`: try consuming `k`
whitespace characters, longest first, then the heading name
(case-insensitively), then `\s*\n` (the engine lands on the last newline of
the whitespace run following the name). -/
def tryWs : Nat → List Char → List Char → Option (List Char)
  | 0, _, _ => none
  | k + 1, rest, name =>
    let pos := rest.drop (k + 1)
    if ciMatchFront name pos then
      let afterName := pos.drop name.length
      match lastNl (afterName.takeWhile isPyWS) with
      | some i => some (lazyGroup (afterName.drop (i + 1)))
      | none => tryWs k rest name
    else tryWs k rest name

/-- Attempt the section pattern `##\s+name\s*\n(.*?)(?=\n##|$)` at the head
of `s`, returning the captured group. -/
def matchSectionAt (s name : List Char) : Option (List Char) :=
  match s with
  | '#' :: '#' :: rest => tryWs (rest.takeWhile isPyWS).length rest name
  | _ => none

/-- Model of `re.search`: leftmost position at which the section pattern matches. -/
def searchSection : List Char → List Char → Option (List Char)
  | [], _ => none
  | c :: t, name =>
    match matchSectionAt (c :: t) name with
    | some g => some g
    | none => searchSection t name

/-- Model of `ContentExtractor.extract_section` (src/aipm/utils/helpers.py):
`re.search(r'##\s+{name}\s*\n(.*?)(?=\n##|$)', content, DOTALL|IGNORECASE)`,
returning the stripped captured group, or the empty string when there is no
match. -/
def extract_section (content name : List Char) : List Char :=
  match searchSection content name with
  | some g => pyStrip g
  | none => []

/-- A nonnegative IEEE-754 binary64 value `m / 2^e` (the exponent range of
the quantities handled here never leaves the normal range, and `m < 2^53`
after rounding). -/
structure F64 where
  m : Nat
  e : Nat
  deriving DecidableEq, Repr

/-- Find the scaling exponent `e` with `2^52 * b ≤ a * 2^e` (for `a ≠ 0` and
enough fuel, the least such `e`). -/
def scaleUp : Nat → Nat → Nat → Nat → Nat
  | 0, _, _, e => e
  | fuel + 1, a, b, e => if a * 2 ^ e < 2 ^ 52 * b then scaleUp fuel a b (e + 1) else e

/-- Round the rational `a / b` (`b ≠ 0`, `a / b < 2^52`) to the nearest
binary64 value, ties to even: the exact semantics of a Python float
division of machine integers in this range. -/
def roundDiv (a b : Nat) : F64 :=
  if a = 0 then ⟨0, 0⟩
  else
    let e := scaleUp (60 + b) a b 0
    let n := a * 2 ^ e
    let m0 := n / b
    let r := n % b
    let m :=
      if b < 2 * r then m0 + 1
      else if 2 * r < b then m0
      else if m0 % 2 = 0 then m0 else m0 + 1
    ⟨m, e⟩

/-- Binary64 multiplication by the exact integer 100. -/
def times100 (f : F64) : F64 := roundDiv (100 * f.m) (2 ^ f.e)

/-- Python `int(...)` truncation of a nonnegative float. -/
def pyTrunc (f : F64) : Nat := f.m / 2 ^ f.e

/-- Evaluation of `int((closed / total) * 100)` in Python float arithmetic
(src/.trae/scripts/pm/issue_close.py, `update_epic_progress`). -/
def pyProgress (closed total : Nat) : Nat :=
  pyTrunc (times100 (roundDiv closed total))

/-- A frontmatter metadata value: a string or an integer (the two shapes the
close scripts write). -/
inductive MVal where
  | s (v : List Char)
  | n (v : Nat)
  deriving DecidableEq, Repr, Inhabited

/-- Frontmatter metadata of a Markdown file, as an insertion-ordered map. -/
abbrev Meta := List (List Char × MVal)

/-- Metadata update with Python `dict` semantics. -/
def minsert (m : Meta) (k : List Char) (v : MVal) : Meta :=
  if m.any (fun p => p.1 = k) then
    m.map (fun p => if p.1 = k then (k, v) else p)
  else m ++ [(k, v)]

/-- Metadata lookup, `post.metadata.get(k)`. -/
def mlookup (k : List Char) : Meta → Option MVal
  | [] => none
  | p :: t => if p.1 = k then some p.2 else mlookup k t

/-- Python truthiness of a metadata value. -/
def pyTruthy : MVal → Bool
  | .s v => v ≠ []
  | .n v => v ≠ 0

/-- A Markdown file in an epic directory: its filename and its frontmatter
as `frontmatter.load` would yield it, or `none` for a file whose read
raises. -/
structure MdFile where
  name : List Char
  meta : Option Meta

/-- Model of `update_local_task_status` (src/.trae/scripts/pm/issue_close.py): set
`status` to `closed` and `updated` to the current time. -/
def update_local_task_status (m : Meta) (now : List Char) : Meta :=
  minsert (minsert m (str ("status")) (.s (str ("closed"))))
    (str ("updated")) (.s now)

/-- The task files considered by `update_epic_progress`: every `.md` file in
the epic directory except `epic.md`. -/
def icTaskFiles (dir : List MdFile) : List MdFile :=
  dir.filter (fun f => List.isSuffixOf (str (".md")) f.name &&
    f.name ≠ str ("epic.md"))

/-- A task counts as closed when its file loads and its `status` metadata
equals `closed`; a file whose read raises is skipped. -/
def isClosedTask (f : MdFile) : Bool :=
  match f.meta with
  | some m => mlookup (str ("status")) m = some (.s (str ("closed")))
  | none => false

/-- The guard of `update_epic_progress`: the epic must carry a truthy
`github_issue_number`, or a `github` string containing `issues/` followed by
a nonempty issue number. -/
def epicGate (em : Meta) : Bool :=
  (match mlookup (str ("github_issue_number")) em with
   | some v => pyTruthy v
   | none => false)
  || (match mlookup (str ("github")) em with
      | some (.s g) =>
        (splitFirst (str ("issues/")) g).isSome &&
          ¬ List.isSuffixOf (str ("issues/")) g
      | _ => false)

/-- Model of `update_epic_progress` (src/.trae/scripts/pm/issue_close.py): returns
`none` when the GitHub-issue guard fails (the epic file is then left
untouched); otherwise counts the closed and total task files and writes
`progress` (as an integer percentage computed in float arithmetic) and
`updated` into the epic metadata. -/
def update_epic_progress (em : Meta) (dir : List MdFile) (now : List Char) :
    Option Meta :=
  if ¬ epicGate em then none
  else
    let tasks := icTaskFiles dir
    let total := tasks.length
    let closed := (tasks.filter isClosedTask).length
    let progress := if 0 < total then pyProgress closed total else 0
    some (minsert (minsert em (str ("progress")) (.n progress))
      (str ("updated")) (.s now))

/-- The filenames `check_all_tasks_completed` excludes
(src/.trae/scripts/pm/epic_close.py). -/
def excludedNames : List (List Char) :=
  [str ("epic.md"), str ("github-mapping.md"), str ("README.md")]

/-- Model of `check_all_tasks_completed` (src/.trae/scripts/pm/epic_close.py): the
names of the non-excluded `.md` files that are unreadable, have no `status`,
or have a `status` other than `closed` (a missing `status` defaults to
`open`). -/
def ecOpenTasks (dir : List MdFile) : List (List Char) :=
  (dir.filter (fun f => List.isSuffixOf (str (".md")) f.name &&
      ¬ excludedNames.contains f.name)).filterMap
    (fun f =>
      match f.meta with
      | none => some f.name
      | some m =>
        if (match mlookup (str ("status")) m with
            | some v => v
            | none => MVal.s (str ("open"))) = MVal.s (str ("closed"))
        then none else some f.name)

/-- Model of `update_epic_status` (src/.trae/scripts/pm/epic_close.py): set `status`
to `completed`, `progress` to the string `100%`, and both `updated` and
`completed` to the current time. -/
def update_epic_status (em : Meta) (now : List Char) : Meta :=
  minsert (minsert (minsert (minsert em
    (str ("status")) (.s (str ("completed"))))
    (str ("progress")) (.s (str ("100%"))))
    (str ("updated")) (.s now))
    (str ("completed")) (.s now)

/-- The local-filesystem effect of `main` in
src/.trae/scripts/pm/epic_close.py: exit code 1 when the epic file is
missing/unreadable or any task is still open (nothing is written in either
case); otherwise the updated epic metadata. -/
def epic_close_main (dir : List MdFile) (em : Option Meta) (now : List Char) :
    Except Nat Meta :=
  match em with
  | none => .error 1
  | some m =>
    if ecOpenTasks dir ≠ [] then .error 1 else .ok (update_epic_status m now)

/-- A UTC wall-clock instant as the close/new scripts format it. -/
structure DateTime where
  year : Nat
  month : Nat
  day : Nat
  hour : Nat
  minute : Nat
  second : Nat
  deriving DecidableEq, Repr

/-- The decimal digit character for `k % 10`. -/
def digitChar (k : Nat) : Char := Char.ofNat (48 + k % 10)

/-- Rendering of a `strftime` two-digit zero-padded field (`%m`, `%d`, `%H`, `%M`, `%S`),
for field values below 100. -/
def pad2 (n : Nat) : List Char := [digitChar (n / 10), digitChar n]

/-- Rendering of `strftime` `%Y` for years 1000–9999: four decimal digits. -/
def pad4 (n : Nat) : List Char :=
  [digitChar (n / 1000), digitChar (n / 100), digitChar (n / 10), digitChar n]

/-- Model of `strftime('%Y-%m-%dT%H:%M:%SZ')`: the timestamp format used by
src/prd_new.py, src/prd_parse.py, src/epic_decompose.py and the
src/.trae/scripts/pm close scripts. -/
def fmtISO (t : DateTime) : List Char :=
  pad4 t.year ++ '-' :: pad2 t.month ++ '-' :: pad2 t.day ++
    'T' :: pad2 t.hour ++ ':' :: pad2 t.minute ++ ':' :: pad2 t.second ++ ['Z']

/-- Model of `strftime('%Y-%m-%d %H:%M:%S UTC')`:
`BaseFileManager.get_current_datetime` in src/aipm/core/base.py. -/
def fmtBase (t : DateTime) : List Char :=
  pad4 t.year ++ '-' :: pad2 t.month ++ '-' :: pad2 t.day ++
    ' ' :: pad2 t.hour ++ ':' :: pad2 t.minute ++ ':' :: pad2 t.second ++
    ' ' :: str ("UTC")

/-- Whether a string has the exact shape `YYYY-MM-DDTHH:MM:SSZ`. -/
def isIsoUtcZ (s : List Char) : Bool :=
  s.length == 20 &&
  [0, 1, 2, 3, 5, 6, 8, 9, 11, 12, 14, 15, 17, 18].all
    (fun i => (s.getD i ' ').isDigit) &&
  s.getD 4 ' ' == '-' && s.getD 7 ' ' == '-' && s.getD 10 ' ' == 'T' &&
  s.getD 13 ' ' == ':' && s.getD 16 ' ' == ':' && s.getD 19 ' ' == 'Z'

/-- The frontmatter dict built by `EpicContentGenerator.generate_content`
(src/aipm/commands/prd_parse.py). -/
def aipmEpicFrontmatter (feature created : List Char) :
    List (List Char × List Char) :=
  [(str ("name"), feature),
   (str ("status"), str ("planning")),
   (str ("created"), created),
   (str ("progress"), str ("0%")),
   (str ("prd"), str (".claude/prds/") ++ feature ++ str (".md")),
   (str ("github"), str ("TBD"))]

/-- Model of `EpicContentGenerator.generate_content` (src/aipm/commands/prd_parse.py):
`'\n'.join(content_parts)` over the frontmatter block and the section
skeleton (the analysis values are passed in after their `.get` defaults have
been applied). -/
def aipmGenerateEpicContent (feature prdDescription created architecture
    technical implementation taskPreview deps risk success effort :
    List Char) : List Char :=
  joinNl
    [format_frontmatter (aipmEpicFrontmatter feature created),
     [],
     str ("# ") ++ feature ++ str (" - Technical Implementation Epic"),
     [],
     str ("## Overview"),
     prdDescription,
     [],
     str ("## Architecture Decisions"),
     architecture,
     [],
     str ("## Technical Approach"),
     technical,
     [],
     str ("## Implementation Strategy"),
     implementation,
     [],
     str ("## Task Breakdown Preview"),
     taskPreview,
     [],
     str ("## Dependencies"),
     deps,
     [],
     str ("## Risk Assessment"),
     risk,
     [],
     str ("## Success Criteria"),
     success,
     [],
     str ("## Estimated Effort"),
     effort]

/-- The `task_breakdown` computation of `create_epic_content`
(src/prd_parse.py): split the categories on commas, keep the ones that are
nonempty after stripping, render each as a checklist line. -/
def taskBreakdown (taskCategories : List Char) : List Char :=
  joinNl (((splitCh ',' taskCategories).filter
      (fun cat => pyStrip cat ≠ [])).map
    (fun cat => str ("- [ ] ") ++ pyStrip cat ++ str (": 待详细分解")))

/-- Model of `create_epic_content` (src/prd_parse.py): the f-string template of the
standalone script, with `status: backlog` in its frontmatter. -/
def create_epic_content (feature prdDescription created taskCategories
    architecture technologyStack frontend backend infra phases risk testing
    timeline resources critical : List Char) : List Char :=
  str ("---\nname: ") ++ feature ++
  str ("\nstatus: backlog\ncreated: ") ++ created ++
  str ("\nprogress: 0%\nprd: .claude/prds/") ++ feature ++
  str (".md\ngithub: [Will be updated when synced to GitHub]\n---\n\n") ++
  str ("# Epic: ") ++ feature ++
  str ("\n\n## Overview\n") ++ prdDescription ++
  str ("\n\n## Architecture Decisions\n") ++ architecture ++
  str ("\n\n**技术栈选择：**\n") ++ technologyStack ++
  str ("\n\n## Technical Approach\n\n### Frontend Components\n") ++ frontend ++
  str ("\n\n### Backend Services\n") ++ backend ++
  str ("\n\n### Infrastructure\n") ++ infra ++
  str ("\n\n## Implementation Strategy\n\n**开发阶段：**\n") ++ phases ++
  str ("\n\n**风险缓解：**\n") ++ risk ++
  str ("\n\n**测试方法：**\n") ++ testing ++
  str ("\n\n## Task Breakdown Preview\n高级任务类别：\n") ++
  taskBreakdown taskCategories ++
  str ("\n\n## Dependencies\n待技术评估确定具体依赖关系\n\n") ++
  str ("## Success Criteria (Technical)\n- 所有功能需求得到技术实现\n") ++
  str ("- 性能指标达到PRD要求\n- 代码质量符合团队标准\n- 测试覆盖率达到要求\n\n") ++
  str ("## Estimated Effort\n\n**整体时间线：**\n") ++ timeline ++
  str ("\n\n**资源需求：**\n") ++ resources ++
  str ("\n\n**关键路径：**\n") ++ critical ++ str ("\n")

/-- Reference reading of one header line for the last-occurrence-wins
characterization of `extract_frontmatter`: the `(key, value)` produced by a
line, restricted to a given key. -/
def lineValueFor (k : List Char) (line : List Char) : Option (List Char) :=
  match splitFirst (str (":")) line with
  | some (k', v) => if pyStrip k' = k then some (pyStrip v) else none
  | none => none

/-- Reference characterization of the parsed header: the value of the last
line whose stripped key is `k` (lines without a colon contribute nothing). -/
def lastColonValue (k : List Char) (lines : List (List Char)) :
    Option (List Char) :=
  lines.reverse.findSome? (lineValueFor k)

/-- A directory of one hundred task files of which twenty-nine are closed,
exercising the float evaluation of the epic progress percentage. -/
def c6Dir : List MdFile :=
  (List.range 29).map (fun i =>
    ⟨'c' :: List.replicate i 'x' ++ str (".md"),
     some [(str ("status"), .s (str ("closed")))]⟩) ++
  (List.range 71).map (fun i =>
    ⟨'o' :: List.replicate i 'x' ++ str (".md"),
     some [(str ("status"), .s (str ("open")))]⟩)

/-- Whether a string contains no colon. -/
def noColon (s : List Char) : Bool := s.all (fun c => c ≠ ':')

/-- Whether a string contains no newline. -/
def noNl (s : List Char) : Bool := s.all (fun c => c ≠ '\n')

/-- Whether a string contains three consecutive dashes (an occurrence of the
frontmatter delimiter). -/
def d3 : List Char → Bool
  | [] => false
  | c :: t => (c = '-' && pyStartsWith (str ("--")) t) || d3 t

/-- A serialized `key: value` line. -/
def rawLine (p : List Char × List Char) : List Char :=
  p.1 ++ ':' :: ' ' :: p.2

/-- A serialized `key: value` line with its terminating newline. -/
def lineNl (p : List Char × List Char) : List Char := rawLine p ++ ['\n']

/-- The newline-terminated lines of a serialized header. -/
def kvBlock (fs : List (List Char × List Char)) : List Char :=
  fs.flatMap lineNl

/-- A well-formed frontmatter key for the round-trip: no colon, no newline,
no `---` occurrence, and no surrounding whitespace. -/
abbrev GoodKey (k : List Char) : Prop :=
  noColon k = true ∧ noNl k = true ∧ d3 k = false ∧ pyStrip k = k

/-- A well-formed frontmatter value for the round-trip: no newline, no `---`
occurrence, and no surrounding whitespace. -/
abbrev GoodVal (v : List Char) : Prop :=
  noNl v = true ∧ d3 v = false ∧ pyStrip v = v

section DictLemmas

theorem dlookup_map_update (m : List (List Char × List Char))
    (k v : List Char) :
    dlookup k (m.map (fun p => if p.1 = k then (k, v) else p)) =
      if m.any (fun p => p.1 = k) then some v else none := by
  induction m with
  | nil => rfl
  | cons p t ih =>
    by_cases h : p.1 = k
    · simp [dlookup, h]
    · simp [dlookup, h, ih]
      rw [decide_eq_false h, Bool.false_or]

theorem dlookup_append_fresh (m : List (List Char × List Char))
    (k v : List Char) :
    dlookup k (m ++ [(k, v)]) =
      if m.any (fun p => p.1 = k) then dlookup k m else some v := by
  induction m with
  | nil => simp [dlookup]
  | cons p t ih =>
    by_cases h : p.1 = k
    · simp [dlookup, h]
    · simp [dlookup, h, ih]
      rw [decide_eq_false h, Bool.false_or]

theorem dlookup_dinsert_self (m : List (List Char × List Char))
    (k v : List Char) : dlookup k (dinsert m k v) = some v := by
  unfold dinsert
  by_cases h : m.any (fun p => p.1 = k)
  · simp [h, dlookup_map_update]
  · simp [h, dlookup_append_fresh]

theorem dlookup_map_update_ne (m : List (List Char × List Char))
    (k k' v : List Char) (h : k ≠ k') :
    dlookup k (m.map (fun p => if p.1 = k' then (k', v) else p)) =
      dlookup k m := by
  induction m with
  | nil => rfl
  | cons p t ih =>
    by_cases hp : p.1 = k'
    · have hk : ¬ p.1 = k := by rw [hp]; exact Ne.symm h
      simp [dlookup, hp, hk, Ne.symm h, ih]
    · by_cases hk : p.1 = k <;> simp [dlookup, hp, hk, h, ih]

theorem dlookup_append_ne (m : List (List Char × List Char))
    (k k' v : List Char) (h : k ≠ k') :
    dlookup k (m ++ [(k', v)]) = dlookup k m := by
  induction m with
  | nil => simp [dlookup, Ne.symm h]
  | cons p t ih =>
    by_cases hp : p.1 = k <;> simp [dlookup, hp, ih]

theorem dlookup_dinsert_ne (m : List (List Char × List Char))
    (k k' v : List Char) (h : k ≠ k') :
    dlookup k (dinsert m k' v) = dlookup k m := by
  unfold dinsert
  by_cases hm : m.any (fun p => p.1 = k')
  · simp [hm, dlookup_map_update_ne _ _ _ _ h]
  · simp [hm, dlookup_append_ne _ _ _ _ h]

theorem mlookup_map_update (m : Meta) (k : List Char) (v : MVal) :
    mlookup k (m.map (fun p => if p.1 = k then (k, v) else p)) =
      if m.any (fun p => p.1 = k) then some v else none := by
  induction m with
  | nil => rfl
  | cons p t ih =>
    by_cases h : p.1 = k
    · simp [mlookup, h]
    · simp [mlookup, h, ih]
      rw [decide_eq_false h, Bool.false_or]

theorem mlookup_append_fresh (m : Meta) (k : List Char) (v : MVal) :
    mlookup k (m ++ [(k, v)]) =
      if m.any (fun p => p.1 = k) then mlookup k m else some v := by
  induction m with
  | nil => simp [mlookup]
  | cons p t ih =>
    by_cases h : p.1 = k
    · simp [mlookup, h]
    · simp [mlookup, h, ih]
      rw [decide_eq_false h, Bool.false_or]

theorem mlookup_minsert_self (m : Meta) (k : List Char) (v : MVal) :
    mlookup k (minsert m k v) = some v := by
  unfold minsert
  by_cases h : m.any (fun p => p.1 = k)
  · simp [h, mlookup_map_update]
  · simp [h, mlookup_append_fresh]

theorem mlookup_map_update_ne (m : Meta) (k k' : List Char) (v : MVal)
    (h : k ≠ k') :
    mlookup k (m.map (fun p => if p.1 = k' then (k', v) else p)) =
      mlookup k m := by
  induction m with
  | nil => rfl
  | cons p t ih =>
    by_cases hp : p.1 = k'
    · have hk : ¬ p.1 = k := by rw [hp]; exact Ne.symm h
      simp [mlookup, hp, hk, Ne.symm h, ih]
    · by_cases hk : p.1 = k <;> simp [mlookup, hp, hk, h, ih]

theorem mlookup_append_ne (m : Meta) (k k' : List Char) (v : MVal)
    (h : k ≠ k') :
    mlookup k (m ++ [(k', v)]) = mlookup k m := by
  induction m with
  | nil => simp [mlookup, Ne.symm h]
  | cons p t ih =>
    by_cases hp : p.1 = k <;> simp [mlookup, hp, ih]

theorem mlookup_minsert_ne (m : Meta) (k k' : List Char) (v : MVal)
    (h : k ≠ k') : mlookup k (minsert m k' v) = mlookup k m := by
  unfold minsert
  by_cases hm : m.any (fun p => p.1 = k')
  · simp [hm, mlookup_map_update_ne _ _ _ _ h]
  · simp [hm, mlookup_append_ne _ _ _ _ h]

end DictLemmas

/-- C2 counterexample: the claim's recognition rule is false as stated.  The
text `---a: b---rest` does not start with a line containing exactly `---`
(its first line is `---a: b---rest`), yet parse extracts a nonempty fields
map from it rather than returning the whole text as body. -/
theorem c2_counterexample :
    (splitNl (str ("---a: b---rest"))).headI ≠ dashes ∧
    parseDoc (str ("---a: b---rest")) ≠ ([], str ("---a: b---rest")) ∧
    extract_frontmatter (str ("---a: b---rest")) =
      [(str ("a"), str ("b"))] := by decide

/-- C2 amended: recognition is by the three-character prefix `---`, not by a
full delimiter line.  For every text that does not start with the prefix
`---`, parse returns an empty fields map and the entire text unchanged as
the body. -/
theorem c2_no_dash_prefix_is_all_body (t : List Char)
    (h : pyStartsWith dashes t = false) : parseDoc t = ([], t) := by
  simp [parseDoc, h]

/-- Witness for `c2_no_dash_prefix_is_all_body` at a concrete input. -/
theorem c2_no_dash_prefix_is_all_body_witness :
    parseDoc (str ("hello")) = ([], str ("hello")) :=
  c2_no_dash_prefix_is_all_body (str ("hello")) (by decide)

/-- C3 counterexample: the claim's aggregation is false for
`BaseValidator.validate_frontmatter`.  On a document missing both `status`
and `created`, it reports only the first missing field, even though
`created` is missing as well (checking for `created` alone reports it). -/
theorem c3_counterexample :
    validate_frontmatter (str ("---\nname: x\n---\nbody"))
      [str ("status"), str ("created")] = .missingFields [str ("status")] ∧
    validate_frontmatter (str ("---\nname: x\n---\nbody"))
      [str ("created")] = .missingFields [str ("created")] ∧
    ([str ("status")] : List (List Char)) ≠ [str ("status"), str ("created")] := by
  decide

/-- C3 amended: both validators fail with `MissingFrontmatter` when the
`---` prefix is absent and with `MalformedFrontmatter` when the split into
delimiter-separated parts yields fewer than three; then
`validate_prd_frontmatter` aggregates all the missing fields of its fixed
required list into one result, while `BaseValidator.validate_frontmatter`
reports only the first missing field of its list; each succeeds exactly
when every required `field:` string occurs in its header segment. -/
theorem c3_taxonomy (content : List Char) (required : List (List Char)) :
    (pyStartsWith dashes content = false →
      validate_frontmatter content required = .missingFrontmatter ∧
      validate_prd_frontmatter content = .missingFrontmatter) ∧
    (∀ b1 r1, pyStartsWith dashes content = true →
      pySplit2 dashes content = [b1, r1] →
      validate_frontmatter content required = .malformedFrontmatter ∧
      validate_prd_frontmatter content = .malformedFrontmatter) ∧
    (∀ b1 fm rest, pyStartsWith dashes content = true →
      pySplit2 dashes content = [b1, fm, rest] →
      ((validate_frontmatter content required = .ok ↔
          ∀ f ∈ required,
            (splitFirst (f ++ [':']) (pyStrip fm)).isSome = true) ∧
       (∀ f, required.find?
            (fun f => (splitFirst (f ++ [':']) (pyStrip fm)).isNone) =
              some f →
          validate_frontmatter content required = .missingFields [f]) ∧
       (validate_prd_frontmatter content = .ok ↔
          ∀ f ∈ [str ("name:"), str ("description:"), str ("status:"),
              str ("created:")],
            (splitFirst f fm).isSome = true) ∧
       (∀ missing,
          missing = [str ("name:"), str ("description:"), str ("status:"),
              str ("created:")].filter (fun f => (splitFirst f fm).isNone) →
          missing ≠ [] →
          validate_prd_frontmatter content =
            .missingFields (missing.map (fun f => f.dropLast))))) := by
  refine ⟨fun h => ?_, fun b1 r1 hsw hsp => ?_, fun b1 fm rest hsw hsp => ?_⟩
  · constructor <;> simp [validate_frontmatter, validate_prd_frontmatter, h]
  · constructor <;>
      simp [validate_frontmatter, validate_prd_frontmatter, hsw, hsp]
  · refine ⟨?_, fun f hf => ?_, ?_, fun missing hm hne => ?_⟩
    · simp only [validate_frontmatter, hsp]
      rw [if_neg (by simp [hsw])]
      cases hf : required.find?
          (fun f => (splitFirst (f ++ [':']) (pyStrip fm)).isNone) with
      | none =>
        simp only [hf]
        rw [List.find?_eq_none] at hf
        simp only [true_iff]
        intro f hmem
        have := hf f hmem
        simpa [Option.isNone_iff_eq_none, Option.isSome_iff_ne_none] using this
      | some f =>
        simp only [hf]
        have hmem := List.find?_some hf
        have hfmem := List.mem_of_find?_eq_some hf
        constructor
        · intro hcontra; exact absurd hcontra (by simp)
        · intro hall
          have := hall f hfmem
          simp only [Option.isNone_iff_eq_none] at hmem
          rw [Option.isSome_iff_ne_none] at this
          exact absurd hmem this
    · simp only [validate_frontmatter, hsp]
      rw [if_neg (by simp [hsw])]
      simp only [hf]
    · simp only [validate_prd_frontmatter, hsp]
      rw [if_neg (by simp [hsw])]
      cases hfl : [str ("name:"), str ("description:"), str ("status:"),
          str ("created:")].filter (fun f => (splitFirst f fm).isNone) with
      | nil =>
        simp only [hfl]
        rw [List.filter_eq_nil_iff] at hfl
        simp only [true_iff]
        intro f hmem
        have := hfl f hmem
        simpa [Option.isNone_iff_eq_none, Option.isSome_iff_ne_none] using this
      | cons a l =>
        simp only [hfl]
        have hamem : a ∈ [str ("name:"), str ("description:"),
            str ("status:"), str ("created:")].filter
            (fun f => (splitFirst f fm).isNone) := by
          rw [hfl]; exact List.mem_cons_self a l
        rw [List.mem_filter] at hamem
        constructor
        · intro hcontra; exact absurd hcontra (by simp)
        · intro hall
          have := hall a hamem.1
          simp only [Option.isNone_iff_eq_none] at hamem
          rw [Option.isSome_iff_ne_none] at this
          exact absurd hamem.2 this
    · subst hm
      simp only [validate_prd_frontmatter, hsp]
      rw [if_neg (by simp [hsw])]

/-- Witness for `c3_taxonomy` at a concrete input. -/
theorem c3_taxonomy_witness :
    validate_frontmatter (str ("---\nname: x\n---\nbody"))
        [str ("status"), str ("created")] = .missingFields [str ("status")] ∧
    validate_prd_frontmatter (str ("---\nname: x\n---\nbody")) =
      .missingFields [str ("description"), str ("status"), str ("created")] := by
  have h := c3_taxonomy (str ("---\nname: x\n---\nbody"))
    [str ("status"), str ("created")]
  refine ⟨h.2.2 [] (str ("\nname: x\n")) (str ("\nbody")) (by decide)
      (by decide) |>.2.1 (str ("status")) (by decide), ?_⟩
  have h4 := h.2.2 [] (str ("\nname: x\n")) (str ("\nbody")) (by decide)
    (by decide) |>.2.2.2
  exact h4 [str ("description:"), str ("status:"), str ("created:")]
    (by decide) (by decide)

theorem digitChar_isDigit (k : Nat) : (digitChar k).isDigit = true := by
  have h : k % 10 < 10 := Nat.mod_lt _ (by norm_num)
  unfold digitChar
  set r := k % 10 with hr
  interval_cases r <;> decide

/-- C7 counterexample: the aipm epic generator writes its `created`
timestamp through `BaseFileManager.get_current_datetime`, whose
`YYYY-MM-DD HH:MM:SS UTC` output is not of the claimed
`YYYY-MM-DDTHH:MM:SSZ` shape, and that value lands verbatim in the epic
file's frontmatter. -/
theorem c7_counterexample :
    isIsoUtcZ (fmtBase ⟨2025, 1, 2, 3, 4, 5⟩) = false ∧
    dlookup (str ("created"))
      (extract_frontmatter (aipmGenerateEpicContent (str ("demo")) (str ("d"))
        (fmtBase ⟨2025, 1, 2, 3, 4, 5⟩) (str ("a")) (str ("t")) (str ("i"))
        (str ("p")) (str ("dp")) (str ("r")) (str ("s")) (str ("e")))) =
      some (fmtBase ⟨2025, 1, 2, 3, 4, 5⟩) ∧
    fmtBase ⟨2025, 1, 2, 3, 4, 5⟩ = str ("2025-01-02 03:04:05 UTC") := by
  decide

/-- C7 amended: the timestamps written by the standalone scripts
(`strftime('%Y-%m-%dT%H:%M:%SZ')`, used by prd_new.py, prd_parse.py,
epic_decompose.py, issue_close.py and epic_close.py) always have the exact
`YYYY-MM-DDTHH:MM:SSZ` shape, but the aipm package's
`BaseFileManager.get_current_datetime` writes `YYYY-MM-DD HH:MM:SS UTC`,
which never has that shape. -/
theorem c7_timestamp_formats (t : DateTime)
    (hy1 : 1000 ≤ t.year) (hy2 : t.year ≤ 9999) (hmo : t.month ≤ 12)
    (hd : t.day ≤ 31) (hh : t.hour ≤ 23) (hmi : t.minute ≤ 59)
    (hs : t.second ≤ 59) :
    isIsoUtcZ (fmtISO t) = true ∧ isIsoUtcZ (fmtBase t) = false := by
  obtain ⟨y, mo, d, h, mi, s⟩ := t
  constructor
  · simp [isIsoUtcZ, fmtISO, pad4, pad2, str, digitChar_isDigit]
  · simp [isIsoUtcZ, fmtBase, pad4, pad2, str]

/-- Witness for `c7_timestamp_formats` at a concrete instant. -/
theorem c7_timestamp_formats_witness :
    isIsoUtcZ (fmtISO ⟨2025, 12, 31, 23, 59, 58⟩) = true ∧
    isIsoUtcZ (fmtBase ⟨2025, 12, 31, 23, 59, 58⟩) = false :=
  c7_timestamp_formats ⟨2025, 12, 31, 23, 59, 58⟩ (by decide) (by decide)
    (by decide) (by decide) (by decide) (by decide) (by decide)

section SplitNlLemmas

theorem splitCh_ne_nil (sep : Char) (s : List Char) : splitCh sep s ≠ [] := by
  cases s with
  | nil => simp [splitCh]
  | cons c t => by_cases h : c = sep <;> simp [splitCh, h]

theorem splitNl_cons_nl (t : List Char) : splitNl ('\n' :: t) = [] :: splitNl t :=
  rfl

theorem splitNl_cons_ne (c : Char) (t : List Char) (h : c ≠ '\n') :
    splitNl (c :: t) = (c :: (splitNl t).headI) :: (splitNl t).tail := by
  simp [splitNl, splitCh, h]

theorem splitNl_append (a b : List Char) :
    splitNl (a ++ '\n' :: b) = splitNl a ++ splitNl b := by
  induction a with
  | nil => rfl
  | cons c a' ih =>
    by_cases h : c = '\n'
    · subst h
      rw [List.cons_append, splitNl_cons_nl, splitNl_cons_nl, ih]
      rfl
    · obtain ⟨x, xs, hx⟩ :
        ∃ x xs, splitNl a' = x :: xs := by
        cases hsa : splitNl a' with
        | nil => exact absurd hsa (splitCh_ne_nil '\n' a')
        | cons x xs => exact ⟨x, xs, rfl⟩
      rw [List.cons_append, splitNl_cons_ne _ _ h, splitNl_cons_ne _ _ h,
        ih, hx, List.cons_append]
      simp

theorem splitNl_noNl (l : List Char) (h : noNl l = true) : splitNl l = [l] := by
  induction l with
  | nil => rfl
  | cons c t ih =>
    simp only [noNl, List.all_cons, Bool.and_eq_true, decide_eq_true_eq] at h
    have ht : splitNl t = [t] := ih h.2
    rw [splitNl_cons_ne _ _ h.1, ht]
    rfl

theorem mem_splitNl_append_right (a b l : List Char) (h : l ∈ splitNl b) :
    l ∈ splitNl (a ++ '\n' :: b) := by
  rw [splitNl_append]; exact List.mem_append_right _ h

theorem mem_splitNl_head (l b : List Char) (hl : noNl l = true) :
    l ∈ splitNl (l ++ '\n' :: b) := by
  rw [splitNl_append, splitNl_noNl l hl]
  exact List.mem_append_left _ (List.mem_singleton.mpr rfl)

theorem mem_splitNl_two (a₁ a₂ b l : List Char) (h : l ∈ splitNl b) :
    l ∈ splitNl (a₁ ++ (a₂ ++ ('\n' :: b))) := by
  rw [← List.append_assoc]
  exact mem_splitNl_append_right _ _ _ h

theorem mem_splitNl_head₃ (a₁ a₂ a₃ b : List Char)
    (h : noNl (a₁ ++ a₂ ++ a₃) = true) :
    a₁ ++ a₂ ++ a₃ ∈ splitNl (a₁ ++ (a₂ ++ (a₃ ++ ('\n' :: b)))) := by
  have he : a₁ ++ (a₂ ++ (a₃ ++ ('\n' :: b))) =
      (a₁ ++ a₂ ++ a₃) ++ '\n' :: b := by simp
  rw [he]
  exact mem_splitNl_head _ _ h

theorem mem_splitNl_skipEntry (k v b l : List Char) (h : l ∈ splitNl b) :
    l ∈ splitNl (k ++ (':' :: (' ' :: (v ++ ('\n' :: b))))) := by
  have he : k ++ (':' :: (' ' :: (v ++ ('\n' :: b)))) =
      (k ++ ':' :: ' ' :: v) ++ '\n' :: b := by simp
  rw [he, splitNl_append]
  exact List.mem_append_right _ h

theorem mem_splitNl_entry (k v b : List Char)
    (h : noNl (k ++ ':' :: ' ' :: v) = true) :
    k ++ ':' :: ' ' :: v ∈ splitNl (k ++ (':' :: (' ' :: (v ++ ('\n' :: b))))) := by
  have he : k ++ (':' :: (' ' :: (v ++ ('\n' :: b)))) =
      (k ++ ':' :: ' ' :: v) ++ '\n' :: b := by simp
  rw [he]
  exact mem_splitNl_head _ _ h

theorem noNl_append (a b : List Char) :
    noNl (a ++ b) = (noNl a && noNl b) := by
  simp [noNl]

theorem mem_splitNl_entry3 (k v₁ v₂ v₃ b : List Char)
    (h : noNl (k ++ ':' :: ' ' :: (v₁ ++ (v₂ ++ v₃))) = true) :
    k ++ ':' :: ' ' :: (v₁ ++ (v₂ ++ v₃)) ∈
      splitNl (k ++ (':' :: (' ' :: (v₁ ++ (v₂ ++ (v₃ ++ ('\n' :: b))))))) := by
  have he : k ++ (':' :: (' ' :: (v₁ ++ (v₂ ++ (v₃ ++ ('\n' :: b)))))) =
      (k ++ ':' :: ' ' :: (v₁ ++ (v₂ ++ v₃))) ++ '\n' :: b := by simp
  rw [he]
  exact mem_splitNl_head _ _ h

end SplitNlLemmas

section RoundTripLemmas

theorem joinNl_cons_of_ne (x : List Char) (ls : List (List Char))
    (h : ls ≠ []) : joinNl (x :: ls) = x ++ '\n' :: joinNl ls := by
  cases ls with
  | nil => exact absurd rfl h
  | cons y ys => rfl

theorem joinNl_append_last (L : List (List Char)) (y : List Char) :
    joinNl (L ++ [y]) = L.flatMap (fun l => l ++ ['\n']) ++ y := by
  induction L with
  | nil => rfl
  | cons a L' ih =>
    rw [List.cons_append, joinNl_cons_of_ne a (L' ++ [y]) (by simp), ih]
    simp

theorem flatMap_map_lineNl (fs : List (List Char × List Char)) :
    (fs.map (fun p => p.1 ++ ':' :: ' ' :: p.2)).flatMap
      (fun l => l ++ ['\n']) = kvBlock fs := by
  induction fs with
  | nil => rfl
  | cons p fs' ih => simp [kvBlock, lineNl, rawLine] at ih ⊢; rw [ih]

theorem serializeDoc_shape (fs : List (List Char × List Char))
    (body : List Char) :
    serializeDoc fs body =
      dashes ++ '\n' :: (kvBlock fs ++ (dashes ++ '\n' :: '\n' :: body)) := by
  show joinNl [format_frontmatter fs, [], body] = _
  rw [joinNl_cons_of_ne _ _ (by simp), joinNl_cons_of_ne _ _ (by simp)]
  have hb : joinNl [body] = body := rfl
  rw [hb]
  unfold format_frontmatter
  rw [List.singleton_append, List.cons_append, joinNl_cons_of_ne _ _ (by simp),
    joinNl_append_last, flatMap_map_lineNl]
  simp

theorem d3_cons (c : Char) (t : List Char) :
    d3 (c :: t) = ((c = '-' && pyStartsWith (str ("--")) t) || d3 t) := rfl

theorem d3_tail_false (c : Char) (t : List Char) (h : d3 (c :: t) = false) :
    d3 t = false := by
  rw [d3_cons] at h
  simp at h
  exact h.2

theorem splitFirst_cons_of_not_pre (pat : List Char) (c : Char)
    (t : List Char) (h : List.isPrefixOf pat (c :: t) = false) :
    splitFirst pat (c :: t) =
      (splitFirst pat t).map (fun p => (c :: p.1, p.2)) := by
  show (if List.isPrefixOf pat (c :: t) = true then
      some ([], (c :: t).drop pat.length)
    else (splitFirst pat t).map (fun p => (c :: p.1, p.2))) = _
  rw [if_neg (by simp [h])]

theorem splitFirst_dashes_self (r : List Char) :
    splitFirst dashes (dashes ++ r) = some ([], r) := by
  have h1 : List.isPrefixOf dashes (dashes ++ r) = true :=
    List.isPrefixOf_iff_prefix.mpr (List.prefix_append _ _)
  unfold splitFirst
  rw [if_pos (by simp [h1]), List.drop_left]

theorem isPrefixOf_two_window (xs u : List Char)
    (h2 : List.isPrefixOf (str ("--")) (xs ++ u) = true) :
    List.isPrefixOf (str ("--")) (xs ++ ['-', '-']) = true := by
  cases xs with
  | nil => decide
  | cons a xs' =>
    cases xs' with
    | nil =>
      have : str ("--") = ['-', '-'] := rfl
      rw [this] at h2 ⊢
      simp [List.isPrefixOf] at h2 ⊢
      exact h2.1
    | cons b xs'' =>
      have : str ("--") = ['-', '-'] := rfl
      rw [this] at h2 ⊢
      simp [List.isPrefixOf] at h2 ⊢
      exact h2

theorem splitFirst_dashes_exact (xs r : List Char)
    (h : d3 (xs ++ ['-', '-']) = false) :
    splitFirst dashes (xs ++ (dashes ++ r)) = some (xs, r) := by
  induction xs with
  | nil => exact splitFirst_dashes_self r
  | cons c xs' ih =>
    have hd3t : d3 (xs' ++ ['-', '-']) = false := by
      rw [List.cons_append] at h
      exact d3_tail_false _ _ h
    have hnp : List.isPrefixOf dashes (c :: (xs' ++ (dashes ++ r))) = false := by
      cases hp : List.isPrefixOf dashes (c :: (xs' ++ (dashes ++ r))) with
      | false => rfl
      | true =>
        exfalso
        have hp' : ('-' == c &&
            List.isPrefixOf (str ("--")) (xs' ++ (dashes ++ r))) = true := hp
        simp only [Bool.and_eq_true, beq_iff_eq] at hp'
        have hw : List.isPrefixOf (str ("--")) (xs' ++ ['-', '-']) = true :=
          isPrefixOf_two_window xs' (dashes ++ r) hp'.2
        rw [List.cons_append, d3_cons, ← hp'.1] at h
        simp [pyStartsWith, hw] at h
    show splitFirst dashes (c :: (xs' ++ (dashes ++ r))) = some (c :: xs', r)
    rw [splitFirst_cons_of_not_pre _ _ _ hnp, ih hd3t]
    rfl

theorem splitNl_headI_takeWhile (s : List Char) :
    (splitNl s).headI = s.takeWhile (fun c => c ≠ '\n') := by
  induction s with
  | nil => rfl
  | cons c t ih =>
    by_cases h : c = '\n'
    · subst h
      rw [splitNl_cons_nl]
      simp
    · rw [splitNl_cons_ne c t h]
      simp [h, ih]

theorem d3_false_of_lines (s : List Char)
    (h : ∀ l ∈ splitNl s, d3 l = false) : d3 s = false := by
  induction s with
  | nil => rfl
  | cons c t ih =>
    rw [d3_cons]
    have ht : d3 t = false := by
      apply ih
      intro l hl
      by_cases hc : c = '\n'
      · exact h l (by rw [hc, splitNl_cons_nl]; exact List.mem_cons_of_mem _ hl)
      · have hsp := splitNl_cons_ne c t hc
        have hne := splitCh_ne_nil '\n' t
        have hdec : splitNl t = (splitNl t).headI :: (splitNl t).tail := by
          cases hq : splitNl t with
          | nil => exact absurd hq hne
          | cons a as => simp
        rw [hdec] at hl
        rcases List.mem_cons.mp hl with h1 | h2
        · have hhd : d3 (c :: (splitNl t).headI) = false :=
            h _ (by rw [hsp]; exact List.mem_cons_self _ _)
          rw [h1]
          exact d3_tail_false _ _ hhd
        · exact h l (by rw [hsp]; exact List.mem_cons_of_mem _ h2)
    rw [ht]
    simp only [Bool.or_false]
    cases hcb : (decide (c = '-') && pyStartsWith (str ("--")) t) with
    | false => rfl
    | true =>
      exfalso
      simp only [Bool.and_eq_true, decide_eq_true_eq] at hcb
      have hc : c = '-' := hcb.1
      have hpp : List.isPrefixOf ['-', '-'] t = true := hcb.2
      obtain ⟨t'', ht''⟩ : ∃ t'', t = '-' :: '-' :: t'' := by
        cases t with
        | nil => simp [List.isPrefixOf] at hpp
        | cons a u =>
          cases u with
          | nil => simp [List.isPrefixOf] at hpp
          | cons b w =>
            simp [List.isPrefixOf] at hpp
            exact ⟨w, by rw [← hpp.1, ← hpp.2]⟩
      have hmem : (splitNl (c :: t)).headI ∈ splitNl (c :: t) := by
        cases hq : splitNl (c :: t) with
        | nil => exact absurd hq (splitCh_ne_nil '\n' (c :: t))
        | cons a as => simp
      have hd := h _ hmem
      rw [splitNl_headI_takeWhile] at hd
      rw [hc, ht''] at hd
      rw [List.takeWhile_cons_of_pos (by decide),
        List.takeWhile_cons_of_pos (by decide),
        List.takeWhile_cons_of_pos (by decide)] at hd
      rw [d3_cons] at hd
      simp [pyStartsWith, List.isPrefixOf] at hd

theorem dropWhile_append_ne (p : Char → Bool) (l₁ l₂ : List Char)
    (h : l₁.dropWhile p ≠ []) :
    (l₁ ++ l₂).dropWhile p = l₁.dropWhile p ++ l₂ := by
  induction l₁ with
  | nil => simp at h
  | cons a t ih =>
    by_cases ha : p a
    · have h' : t.dropWhile p ≠ [] := by
        rwa [List.dropWhile_cons_of_pos ha] at h
      rw [List.cons_append, List.dropWhile_cons_of_pos ha,
        List.dropWhile_cons_of_pos ha, ih h']
    · rw [List.cons_append, List.dropWhile_cons_of_neg ha,
        List.dropWhile_cons_of_neg ha, List.cons_append]

theorem noNl_rawLine (p : List Char × List Char) (hk : noNl p.1 = true)
    (hv : noNl p.2 = true) : noNl (rawLine p) = true := by
  rw [rawLine, noNl_append, hk]
  simp [noNl] at hv ⊢
  exact hv

theorem splitNl_kvBlock (fs : List (List Char × List Char)) (z : List Char)
    (hnk : ∀ p ∈ fs, noNl p.1 = true) (hnv : ∀ p ∈ fs, noNl p.2 = true) :
    splitNl (kvBlock fs ++ z) = fs.map rawLine ++ splitNl z := by
  induction fs with
  | nil => simp [kvBlock]
  | cons p fs' ih =>
    have hr : kvBlock (p :: fs') ++ z =
        rawLine p ++ '\n' :: (kvBlock fs' ++ z) := by
      simp [kvBlock, lineNl]
    rw [hr, splitNl_append, splitNl_noNl (rawLine p)
      (noNl_rawLine p (hnk p (by simp)) (hnv p (by simp)))]
    rw [ih (fun q hq => hnk q (by simp [hq])) (fun q hq => hnv q (by simp [hq]))]
    simp

theorem d3_colon_space (v : List Char) (hv : d3 v = false) :
    d3 (':' :: ' ' :: v) = false := by
  rw [d3_cons, d3_cons, hv]
  simp

theorem d3_append_safe (a b : List Char) (ha : d3 a = false)
    (hb : d3 b = false) (hh : ∀ c ∈ b.take 1, c ≠ '-') :
    d3 (a ++ b) = false := by
  induction a with
  | nil => simpa using hb
  | cons c a' ih =>
    have ha' : d3 a' = false := d3_tail_false _ _ ha
    rw [List.cons_append, d3_cons, ih ha']
    simp only [Bool.or_false]
    cases hcb : (decide (c = '-') && pyStartsWith (str ("--")) (a' ++ b)) with
    | false => rfl
    | true =>
      exfalso
      simp only [Bool.and_eq_true, decide_eq_true_eq] at hcb
      have hc : c = '-' := hcb.1
      have hpp : List.isPrefixOf ['-', '-'] (a' ++ b) = true := hcb.2
      cases a' with
      | nil =>
        cases b with
        | nil => simp [List.isPrefixOf] at hpp
        | cons x w =>
          simp [List.isPrefixOf] at hpp
          exact (hh x (by simp)) hpp.1.symm
      | cons d a'' =>
        cases a'' with
        | nil =>
          cases b with
          | nil => simp [List.isPrefixOf] at hpp
          | cons x w =>
            simp [List.isPrefixOf] at hpp
            exact (hh x (by simp)) hpp.2.symm
        | cons e a''' =>
          simp [List.isPrefixOf] at hpp
          rw [d3_cons] at ha
          rw [hc, ← hpp.1, ← hpp.2] at ha
          simp [pyStartsWith, List.isPrefixOf] at ha

theorem d3_rawLine (k v : List Char) (hk : d3 k = false) (hv : d3 v = false) :
    d3 (k ++ ':' :: ' ' :: v) = false :=
  d3_append_safe k (':' :: ' ' :: v) hk (d3_colon_space v hv)
    (by intro c hc; simp at hc; rw [hc]; decide)

theorem d3_header (fs : List (List Char × List Char))
    (hk : ∀ p ∈ fs, d3 p.1 = false) (hv : ∀ p ∈ fs, d3 p.2 = false)
    (hnk : ∀ p ∈ fs, noNl p.1 = true) (hnv : ∀ p ∈ fs, noNl p.2 = true) :
    d3 (('\n' :: kvBlock fs) ++ ['-', '-']) = false := by
  apply d3_false_of_lines
  intro l hl
  rw [List.cons_append, splitNl_cons_nl] at hl
  rcases List.mem_cons.mp hl with h1 | h2
  · rw [h1]; rfl
  · rw [splitNl_kvBlock fs ['-', '-'] hnk hnv] at h2
    rcases List.mem_append.mp h2 with h3 | h4
    · rcases List.mem_map.mp h3 with ⟨p, hp, he⟩
      rw [← he]
      exact d3_rawLine p.1 p.2 (hk p hp) (hv p hp)
    · have h5 : splitNl ['-', '-'] = [['-', '-']] := by decide
      rw [h5] at h4
      rw [List.mem_singleton.mp h4]
      decide

theorem pyStripL_cons_ws (c : Char) (s : List Char) (h : isPyWS c = true) :
    pyStripL (c :: s) = pyStripL s := by
  simp [pyStripL, List.dropWhile_cons, h]

theorem pyStripL_cons_not_ws (c : Char) (s : List Char) (h : isPyWS c = false) :
    pyStripL (c :: s) = c :: s := by
  simp [pyStripL, List.dropWhile_cons, h]

theorem stripL_len_le (s : List Char) : (pyStripL s).length ≤ s.length := by
  simpa [pyStripL] using (List.dropWhile_sublist _).length_le

theorem stripR_len_le (s : List Char) : (pyStripR s).length ≤ s.length := by
  have h : (s.reverse.dropWhile isPyWS).length ≤ s.reverse.length :=
    (List.dropWhile_sublist _).length_le
  simpa [pyStripR] using h

theorem strip_inv_head_not_ws (k : List Char) (h : pyStrip k = k) :
    ∀ c ∈ k.take 1, isPyWS c = false := by
  intro c hc
  cases k with
  | nil => simp at hc
  | cons a t =>
    have hca : c = a := by simpa using hc
    subst hca
    cases hw : isPyWS c with
    | false => rfl
    | true =>
      exfalso
      have h1 : pyStrip (c :: t) = pyStripR (pyStripL t) := by
        unfold pyStrip
        rw [pyStripL_cons_ws c t hw]
      have hlen : (pyStrip (c :: t)).length ≤ t.length := by
        rw [h1]
        exact le_trans (stripR_len_le _) (stripL_len_le _)
      rw [h] at hlen
      simp at hlen

theorem strip_inv_stripR (v : List Char) (h : pyStrip v = v) :
    pyStripR v = v ∧ pyStripL v = v := by
  have h1 : (pyStrip v).length ≤ (pyStripL v).length := stripR_len_le _
  have h2 : (pyStripL v).length ≤ v.length := stripL_len_le _
  have hv : (pyStrip v).length = v.length := by rw [h]
  rw [hv] at h1
  have hLlen : (pyStripL v).length = v.length := le_antisymm h2 h1
  have hL : pyStripL v = v := by
    have hs : pyStripL v <:+ v := List.dropWhile_suffix _
    exact hs.eq_of_length hLlen
  refine ⟨?_, hL⟩
  have hRL : pyStrip v = pyStripR v := by
    unfold pyStrip
    rw [hL]
  rw [← hRL, h]

theorem pyStripR_no_strip (v : List Char)
    (h : ∀ c ∈ v.getLast?, isPyWS c = false) : pyStripR v = v := by
  cases hrev : v.reverse with
  | nil =>
    have hv : v = [] := by simpa using hrev
    rw [hv]
    rfl
  | cons a w =>
    have ha : v.getLast? = some a := by
      rw [← List.head?_reverse, hrev]
      rfl
    have hna : isPyWS a = false := h a (by rw [ha]; rfl)
    unfold pyStripR
    rw [hrev, List.dropWhile_cons, if_neg (by simp [hna]), ← hrev,
      List.reverse_reverse]

theorem pyStripR_append_left (a b : List Char) (hb : pyStripR b ≠ []) :
    pyStripR (a ++ b) = a ++ pyStripR b := by
  have hbd : b.reverse.dropWhile isPyWS ≠ [] := by
    intro hcon
    apply hb
    unfold pyStripR
    rw [hcon]
    rfl
  unfold pyStripR
  rw [List.reverse_append, dropWhile_append_ne isPyWS b.reverse a.reverse hbd,
    List.reverse_append, List.reverse_reverse]

theorem pyStrip_cons_space (v : List Char) : pyStrip (' ' :: v) = pyStrip v := by
  unfold pyStrip
  rw [pyStripL_cons_ws ' ' v (by decide)]

theorem pyStripR_ne_nil (x : List Char) (c : Char) (hc : c ∈ x)
    (hw : isPyWS c = false) : pyStripR x ≠ [] := by
  intro h
  have hnil : x.reverse.dropWhile isPyWS = [] := by
    unfold pyStripR at h
    cases hq : x.reverse.dropWhile isPyWS with
    | nil => rfl
    | cons y ys => rw [hq] at h; simp at h
  rw [List.dropWhile_eq_nil_iff] at hnil
  have hcw := hnil c (by simp [hc])
  rw [hw] at hcw
  exact Bool.false_ne_true hcw

theorem splitFirst_colon (k w : List Char) (hk : noColon k = true) :
    splitFirst (str (":")) (k ++ ':' :: w) = some (k, w) := by
  induction k with
  | nil =>
    show splitFirst (str (":")) (':' :: w) = some ([], w)
    unfold splitFirst
    rw [if_pos (show List.isPrefixOf (str (":")) (':' :: w) = true by
      simp [List.isPrefixOf])]
    simp [str]
  | cons c k' ih =>
    have hkc : noColon k' = true ∧ c ≠ ':' := by
      simp [noColon] at hk
      refine ⟨by simp [noColon]; exact fun x hx => hk.2 x hx, hk.1⟩
    have hpre : List.isPrefixOf (str (":")) (c :: (k' ++ ':' :: w)) = false := by
      show (':' == c && List.isPrefixOf [] (k' ++ ':' :: w)) = false
      have hcc : (':' == c) = false := by
        cases hq : (':' == c) with
        | false => rfl
        | true => exact absurd (eq_comm.mp (by simpa using hq)) hkc.2
      rw [hcc]
      rfl
    show splitFirst (str (":")) (c :: (k' ++ ':' :: w)) = some (c :: k', w)
    rw [splitFirst_cons_of_not_pre _ _ _ hpre, ih hkc.1]
    rfl

theorem dinsert_fresh (m : List (List Char × List Char)) (k v : List Char)
    (h : ∀ p ∈ m, p.1 ≠ k) : dinsert m k v = m ++ [(k, v)] := by
  have hany : m.any (fun p => p.1 = k) = false := by
    rw [List.any_eq_false]
    intro p hp
    simp [h p hp]
  unfold dinsert
  rw [if_neg (by simp [hany])]

end RoundTripLemmas

/-- C8 counterexample: the standalone epic generator of src/prd_parse.py
produces an epic whose frontmatter `status` is `backlog`, not the claimed
`planning`, even for a feature whose PRD passes validation. -/
theorem c8_counterexample :
    validate_prd_frontmatter (str
      ("---\nname: demo\ndescription: d\nstatus: backlog\ncreated: 2025-01-02T03:04:05Z\n---\nbody")) =
      .ok ∧
    dlookup (str ("status"))
      (extract_frontmatter (create_epic_content (str ("demo")) (str ("d"))
        (str ("2025-01-02T03:04:05Z")) (str ("设计, 开发")) (str ("a"))
        (str ("ts")) (str ("f")) (str ("b")) (str ("i")) (str ("p"))
        (str ("r")) (str ("t")) (str ("tl")) (str ("rs")) (str ("c")))) =
      some (str ("backlog")) ∧
    str ("backlog") ≠ str ("planning") := by decide

/-- C8 amended: the aipm epic generator
(`EpicContentGenerator.generate_content`) writes an epic whose header
contains the lines `status: planning` and `prd: .claude/prds/<feature>.md`,
while the standalone script's `create_epic_content` writes
`status: backlog` with the same `prd` line, for every feature name without
a newline (every validated kebab-case name qualifies). -/
theorem c8_epic_generation_lines (feature prdDescription created architecture
    technical implementation taskPreview deps risk success effort
    taskCategories technologyStack frontend backend infra phases
    riskMitigation testing timeline resources critical : List Char)
    (hf : noNl feature = true) :
    str ("status: planning") ∈ splitNl (aipmGenerateEpicContent feature
      prdDescription created architecture technical implementation
      taskPreview deps risk success effort) ∧
    str ("prd: .claude/prds/") ++ feature ++ str (".md") ∈
      splitNl (aipmGenerateEpicContent feature prdDescription created
        architecture technical implementation taskPreview deps risk success
        effort) ∧
    str ("status: backlog") ∈ splitNl (create_epic_content feature
      prdDescription created taskCategories architecture technologyStack
      frontend backend infra phases riskMitigation testing timeline
      resources critical) ∧
    str ("prd: .claude/prds/") ++ feature ++ str (".md") ∈
      splitNl (create_epic_content feature prdDescription created
        taskCategories architecture technologyStack frontend backend infra
        phases riskMitigation testing timeline resources critical) := by
  have e1 : str ("\nstatus: backlog\ncreated: ") =
      '\n' :: (str ("status: backlog") ++ '\n' :: str ("created: ")) := by
    decide
  have e2 : str ("\nprogress: 0%\nprd: .claude/prds/") =
      '\n' :: (str ("progress: 0%") ++ '\n' :: str ("prd: .claude/prds/")) := by
    decide
  have e3 : str (".md\ngithub: [Will be updated when synced to GitHub]\n---\n\n") =
      str (".md") ++
        '\n' :: str ("github: [Will be updated when synced to GitHub]\n---\n\n") := by
    decide
  refine ⟨?_, ?_, ?_, ?_⟩
  · simp only [aipmGenerateEpicContent, format_frontmatter,
      aipmEpicFrontmatter, joinNl, List.map_cons, List.map_nil,
      List.cons_append, List.nil_append, List.append_assoc]
    apply mem_splitNl_append_right
    apply mem_splitNl_skipEntry
    rw [show str ("status: planning") =
      str ("status") ++ ':' :: ' ' :: str ("planning") from by decide]
    exact mem_splitNl_entry _ _ _ (by decide)
  · simp only [aipmGenerateEpicContent, format_frontmatter,
      aipmEpicFrontmatter, joinNl, List.map_cons, List.map_nil,
      List.cons_append, List.nil_append, List.append_assoc]
    apply mem_splitNl_append_right
    apply mem_splitNl_skipEntry
    apply mem_splitNl_skipEntry
    apply mem_splitNl_skipEntry
    apply mem_splitNl_skipEntry
    rw [show str ("prd: .claude/prds/") ++ (feature ++ str (".md")) =
        str ("prd") ++ ':' :: ' ' ::
          (str (".claude/prds/") ++ (feature ++ str (".md"))) from by
      rw [show str ("prd: .claude/prds/") =
        str ("prd") ++ ':' :: ' ' :: str (".claude/prds/") from by decide]
      simp]
    apply mem_splitNl_entry3
    rw [show str ("prd") ++ ':' :: ' ' ::
        (str (".claude/prds/") ++ (feature ++ str (".md"))) =
        (str ("prd") ++ [':', ' ']) ++
          (str (".claude/prds/") ++ (feature ++ str (".md"))) from by simp,
      noNl_append, noNl_append, noNl_append, noNl_append, hf]
    decide
  · simp only [create_epic_content]
    rw [e1]
    simp only [List.append_assoc, List.cons_append]
    apply mem_splitNl_two
    exact mem_splitNl_head _ _ (by decide)
  · simp only [create_epic_content]
    rw [e1, e2, e3]
    simp only [List.append_assoc, List.cons_append]
    apply mem_splitNl_two
    apply mem_splitNl_append_right
    apply mem_splitNl_two
    apply mem_splitNl_append_right
    apply mem_splitNl_head₃
    rw [noNl_append, noNl_append, hf]
    decide

/-- Witness for `c8_epic_generation_lines` at a concrete feature name. -/
theorem c8_epic_generation_lines_witness :
    str ("status: planning") ∈ splitNl (aipmGenerateEpicContent (str ("demo"))
      (str ("d")) (str ("t")) (str ("a")) (str ("b")) (str ("c")) (str ("e"))
      (str ("f")) (str ("g")) (str ("h")) (str ("i"))) ∧
    str ("status: backlog") ∈ splitNl (create_epic_content (str ("demo"))
      (str ("d")) (str ("t")) (str ("tc")) (str ("a")) (str ("a"))
      (str ("b")) (str ("c")) (str ("e")) (str ("f")) (str ("g"))
      (str ("h")) (str ("i")) (str ("j")) (str ("k"))) := by
  have h := c8_epic_generation_lines (str ("demo")) (str ("d")) (str ("t"))
    (str ("a")) (str ("b")) (str ("c")) (str ("e")) (str ("f")) (str ("g"))
    (str ("h")) (str ("i")) (str ("tc")) (str ("a")) (str ("b")) (str ("c"))
    (str ("e")) (str ("f")) (str ("g")) (str ("h")) (str ("i")) (str ("j"))
    (str ("k")) (by decide)
  exact ⟨h.1, h.2.2.1⟩

section SectionLemmas

theorem ciMatchFront_self_append (n x : List Char) :
    ciMatchFront n (n ++ x) = true := by
  induction n with
  | nil => rfl
  | cons a as ih => simp [ciMatchFront, ciEq, ih]

theorem splitFirst_isNone_cons (pat : List Char) (c : Char) (t : List Char)
    (h : (splitFirst pat (c :: t)).isNone = true) :
    (splitFirst pat t).isNone = true := by
  unfold splitFirst at h
  by_cases hp : List.isPrefixOf pat (c :: t)
  · simp [hp] at h
  · simp only [hp, if_false] at h
    cases hs : splitFirst pat t with
    | none => rfl
    | some p => rw [hs] at h; simp at h

theorem splitFirst_isNone_drop (pat : List Char) (s : List Char) (m : Nat)
    (h : (splitFirst pat s).isNone = true) :
    (splitFirst pat (s.drop m)).isNone = true := by
  induction m generalizing s with
  | zero => simpa using h
  | succ m ih =>
    cases s with
    | nil => simpa using h
    | cons c t => exact ih t (splitFirst_isNone_cons pat c t h)

theorem lazyGroup_cons₂ (c d : Char) (u : List Char) :
    lazyGroup (c :: d :: u) =
      if pyStartsWith (str ("\n##")) (c :: d :: u) = true then []
      else c :: lazyGroup (d :: u) := by
  show (if c = '\n' && (d :: u).isEmpty then []
    else if pyStartsWith (str ("\n##")) (c :: d :: u) = true then []
    else c :: lazyGroup (d :: u)) = _
  rw [if_neg (by simp)]

theorem lazyGroup_no_break (s : List Char)
    (h : (splitFirst (str ("\n##")) s).isNone = true) :
    lazyGroup s = if s.getLast? = some '\n' then s.dropLast else s := by
  induction s with
  | nil => rfl
  | cons c t ih =>
    cases t with
    | nil =>
      by_cases hc : c = '\n'
      · subst hc; rfl
      · have h1 : pyStartsWith (str ("\n##")) [c] = false := by
          unfold pyStartsWith
          cases hp : List.isPrefixOf (str ("\n##")) [c]
          · rfl
          · obtain ⟨x, hx⟩ := (List.isPrefixOf_iff_prefix.mp hp)
            simp [str] at hx
        simp [lazyGroup, h1, hc]
    | cons d u =>
      have hpre : pyStartsWith (str ("\n##")) (c :: d :: u) = false := by
        unfold splitFirst at h
        by_cases hp : List.isPrefixOf (str ("\n##")) (c :: d :: u)
        · simp [hp] at h
        · unfold pyStartsWith
          rw [Bool.eq_false_iff]
          exact hp
      have ht : (splitFirst (str ("\n##")) (d :: u)).isNone = true :=
        splitFirst_isNone_cons _ _ _ h
      have iht := ih ht
      rw [lazyGroup_cons₂, hpre, if_neg (by simp), iht]
      by_cases hl : (d :: u).getLast? = some '\n'
      · rw [if_pos hl, if_pos (by simpa using hl)]
        rfl
      · rw [if_neg hl, if_neg (by simpa using hl)]

theorem pyStripR_append_ws (x : List Char) (c : Char) (hc : isPyWS c = true) :
    pyStripR (x ++ [c]) = pyStripR x := by
  unfold pyStripR
  rw [List.reverse_append]
  simp [List.dropWhile, hc]

theorem pyStrip_append_nl (y : List Char) :
    pyStrip (y ++ ['\n']) = pyStrip y := by
  unfold pyStrip pyStripL
  cases hy : y.dropWhile isPyWS with
  | nil =>
    have h2 : (y ++ ['\n']).dropWhile isPyWS = [] := by
      rw [List.dropWhile_eq_nil_iff] at hy ⊢
      intro c hc
      rcases List.mem_append.mp hc with hcy | hc1
      · exact hy c hcy
      · simp at hc1; subst hc1; rfl
    rw [h2]
  | cons z zs =>
    rw [dropWhile_append_ne _ _ _ (by rw [hy]; simp), hy,
      pyStripR_append_ws _ _ (by decide)]

theorem pyStrip_dropLast_nl (s : List Char) (h : s.getLast? = some '\n') :
    pyStrip s.dropLast = pyStrip s := by
  have hne : s ≠ [] := by intro he; subst he; simp at h
  have hs : s = s.dropLast ++ ['\n'] := by
    conv_lhs => rw [← List.dropLast_append_getLast hne]
    congr 1
    rw [List.getLast_eq_iff_getLast?_eq_some hne |>.mpr h]
  conv_rhs => rw [hs]
  rw [pyStrip_append_nl]

theorem pyStripL_drop_ws (s : List Char) (m : Nat)
    (h : ∀ c ∈ s.take m, isPyWS c = true) :
    pyStripL (s.drop m) = pyStripL s := by
  induction m generalizing s with
  | zero => simp
  | succ m ih =>
    cases s with
    | nil => simp
    | cons c t =>
      have hc : isPyWS c = true := h c (by simp)
      have ht : ∀ x ∈ t.take m, isPyWS x = true := by
        intro x hx
        exact h x (by simp [hx])
      show pyStripL (t.drop m) = pyStripL (c :: t)
      rw [ih t ht]
      unfold pyStripL
      simp [List.dropWhile, hc]

theorem pyStrip_lazyGroup (s : List Char)
    (h : (splitFirst (str ("\n##")) s).isNone = true) :
    pyStrip (lazyGroup s) = pyStrip s := by
  rw [lazyGroup_no_break s h]
  by_cases hl : s.getLast? = some '\n'
  · rw [if_pos hl, pyStrip_dropLast_nl s hl]
  · rw [if_neg hl]

theorem take_takeWhile_ws (s : List Char) (m : Nat)
    (hm : m ≤ (s.takeWhile isPyWS).length) :
    ∀ c ∈ s.take m, isPyWS c = true := by
  induction s generalizing m with
  | nil => simp
  | cons a u ih =>
    cases m with
    | zero => simp
    | succ m =>
      by_cases ha : isPyWS a
      · intro c hc
        rw [List.takeWhile_cons_of_pos ha] at hm
        simp only [List.take_succ_cons] at hc
        rcases List.mem_cons.mp hc with rfl | hcu
        · exact ha
        · exact ih m (Nat.le_of_succ_le_succ (by simpa using hm)) c hcu
      · rw [List.takeWhile_cons_of_neg ha] at hm
        simp at hm

theorem tryWs_one (X name : List Char) :
    tryWs 1 (' ' :: X) name =
      if ciMatchFront name X then
        (match lastNl ((X.drop name.length).takeWhile isPyWS) with
         | some i => some (lazyGroup ((X.drop name.length).drop (i + 1)))
         | none => none)
      else none := by
  show (if ciMatchFront name X then
      (match lastNl ((X.drop name.length).takeWhile isPyWS) with
       | some i => some (lazyGroup ((X.drop name.length).drop (i + 1)))
       | none => tryWs 0 (' ' :: X) name)
      else tryWs 0 (' ' :: X) name) = _
  rfl

theorem lastNl_cons_nl (r : List Char) :
    lastNl ('\n' :: r) =
      some (match lastNl r with | some i => i + 1 | none => 0) := by
  show (match lastNl r with
    | some i => some (i + 1)
    | none => if '\n' = '\n' then some 0 else none) = _
  cases hr : lastNl r with
  | some i => rfl
  | none => simp

theorem lastNl_lt_length (r : List Char) (j : Nat) (h : lastNl r = some j) :
    j < r.length := by
  induction r generalizing j with
  | nil => simp [lastNl] at h
  | cons c t ih =>
    unfold lastNl at h
    cases hlt : lastNl t with
    | some i =>
      rw [hlt] at h
      simp only [Option.some.injEq] at h
      subst h
      simpa using ih i hlt
    | none =>
      rw [hlt] at h
      by_cases hc : c = '\n'
      · simp [hc] at h; subst h; simp
      · simp [hc] at h

end SectionLemmas

section RoundTripMain

theorem fold_kvBlock_strip (fs : List (List Char × List Char)) :
    ∀ acc : List (List Char × List Char),
    (∀ p ∈ fs, GoodKey p.1) → (∀ p ∈ fs, GoodVal p.2) →
    (∀ p ∈ fs, ∀ q ∈ acc, q.1 ≠ p.1) → (fs.map Prod.fst).Nodup → fs ≠ [] →
    (splitNl (pyStripR (kvBlock fs))).foldl
      (fun m line =>
        match splitFirst (str (":")) line with
        | some (k, v) => dinsert m (pyStrip k) (pyStrip v)
        | none => m) acc = acc ++ fs := by
  induction fs with
  | nil =>
    intro acc _ _ _ _ hne
    exact absurd rfl hne
  | cons p fs' ih =>
    intro acc hgk hgv hfresh hnd _
    obtain ⟨k, v⟩ := p
    have hk' : GoodKey k := hgk (k, v) (by simp)
    have hv' : GoodVal v := hgv (k, v) (by simp)
    cases fs' with
    | nil =>
      have hshape : kvBlock [(k, v)] = (k ++ ':' :: ' ' :: v) ++ ['\n'] := by
        simp [kvBlock, lineNl, rawLine]
      rw [hshape, pyStripR_append_ws _ '\n' (by decide)]
      cases v with
      | nil =>
        have h1 : k ++ ':' :: ' ' :: ([] : List Char) =
            (k ++ [':']) ++ [' '] := by simp
        rw [h1, pyStripR_append_ws _ ' ' (by decide)]
        have h2 : pyStripR (k ++ [':']) = k ++ [':'] := by
          apply pyStripR_no_strip
          intro c hc
          rw [List.getLast?_concat] at hc
          have hcc : ':' = c := by simpa using hc
          rw [← hcc]
          decide
        rw [h2]
        have h3 : noNl (k ++ [':']) = true := by
          rw [noNl_append, hk'.2.1]
          decide
        rw [splitNl_noNl _ h3, List.foldl_cons, List.foldl_nil]
        have h4 : splitFirst (str (":")) (k ++ [':']) = some (k, []) :=
          splitFirst_colon k [] hk'.1
        simp only [h4]
        show dinsert acc (pyStrip k) (pyStrip []) = acc ++ [(k, [])]
        rw [hk'.2.2.2, show pyStrip ([] : List Char) = [] from rfl,
          dinsert_fresh acc k [] (fun q hq => hfresh (k, []) (by simp) q hq)]
      | cons c v' =>
        have hRv : pyStripR (c :: v') = c :: v' :=
          (strip_inv_stripR _ hv'.2.2).1
        have h1 : k ++ ':' :: ' ' :: (c :: v') =
            (k ++ [':', ' ']) ++ (c :: v') := by simp
        rw [h1, pyStripR_append_left _ _ (by rw [hRv]; simp), hRv]
        have h2 : (k ++ [':', ' ']) ++ (c :: v') =
            k ++ ':' :: (' ' :: c :: v') := by simp
        rw [h2]
        have hnv : noNl (c :: v') = true := hv'.1
        have h3 : noNl (k ++ ':' :: (' ' :: c :: v')) = true := by
          rw [noNl_append, hk'.2.1]
          simp [noNl] at hnv ⊢
          exact hnv
        rw [splitNl_noNl _ h3, List.foldl_cons, List.foldl_nil]
        have h4 : splitFirst (str (":")) (k ++ ':' :: (' ' :: c :: v')) =
            some (k, ' ' :: c :: v') :=
          splitFirst_colon k (' ' :: c :: v') hk'.1
        simp only [h4]
        show dinsert acc (pyStrip k) (pyStrip (' ' :: c :: v')) =
          acc ++ [(k, c :: v')]
        rw [hk'.2.2.2, pyStrip_cons_space, hv'.2.2,
          dinsert_fresh acc k (c :: v')
            (fun q hq => hfresh (k, c :: v') (by simp) q hq)]
    | cons q fs'' =>
      have hcol : ':' ∈ kvBlock (q :: fs'') := by
        simp [kvBlock, lineNl, rawLine]
      have hbne : pyStripR (kvBlock (q :: fs'')) ≠ [] :=
        pyStripR_ne_nil _ ':' hcol (by decide)
      have hshape : kvBlock ((k, v) :: q :: fs'') =
          lineNl (k, v) ++ kvBlock (q :: fs'') := by
        simp [kvBlock]
      rw [hshape, pyStripR_append_left _ _ hbne]
      have h2 : lineNl (k, v) ++ pyStripR (kvBlock (q :: fs'')) =
          rawLine (k, v) ++ '\n' :: pyStripR (kvBlock (q :: fs'')) := by
        simp [lineNl]
      rw [h2, splitNl_append,
        splitNl_noNl (rawLine (k, v)) (noNl_rawLine (k, v) hk'.2.1 hv'.1),
        List.singleton_append, List.foldl_cons]
      have h4 : splitFirst (str (":")) (rawLine (k, v)) =
          some (k, ' ' :: v) :=
        splitFirst_colon k (' ' :: v) hk'.1
      simp only [h4]
      have hstep : dinsert acc (pyStrip k) (pyStrip (' ' :: v)) =
          acc ++ [(k, v)] := by
        rw [hk'.2.2.2, pyStrip_cons_space, hv'.2.2,
          dinsert_fresh acc k v (fun r hr => hfresh (k, v) (by simp) r hr)]
      rw [hstep]
      have hndt : ((k, v) :: q :: fs'').map Prod.fst =
          k :: (q :: fs'').map Prod.fst := rfl
      rw [hndt] at hnd
      have hnds := List.nodup_cons.mp hnd
      have happ := ih (acc ++ [(k, v)])
        (fun r hr => hgk r (by simp [hr]))
        (fun r hr => hgv r (by simp [hr]))
        ?_ hnds.2 (by simp)
      · rw [happ]
        simp
      · intro r hr t ht
        rcases List.mem_append.mp ht with h5 | h6
        · exact hfresh r (by simp [hr]) t h5
        · have ht' : t = (k, v) := by simpa using h6
          rw [ht']
          intro he
          apply hnds.1
          have he' : k = r.1 := he
          rw [he']
          exact List.mem_map_of_mem _ hr

theorem pyStripL_kvBlock_cons (p : List Char × List Char)
    (fs' : List (List Char × List Char)) (hk : GoodKey p.1) :
    pyStripL (kvBlock (p :: fs')) = kvBlock (p :: fs') := by
  have hshape : kvBlock (p :: fs') =
      p.1 ++ (':' :: ' ' :: (p.2 ++ '\n' :: kvBlock fs')) := by
    simp [kvBlock, lineNl, rawLine]
  cases hk1 : p.1 with
  | nil =>
    rw [hshape, hk1, List.nil_append]
    exact pyStripL_cons_not_ws _ _ (by decide)
  | cons c k' =>
    have hc : isPyWS c = false :=
      strip_inv_head_not_ws p.1 hk.2.2.2 c (by rw [hk1]; simp)
    rw [hshape, hk1, List.cons_append]
    exact pyStripL_cons_not_ws _ _ hc

theorem pySplit2_serialize (fs : List (List Char × List Char))
    (body : List Char)
    (hd : d3 (('\n' :: kvBlock fs) ++ ['-', '-']) = false) :
    pySplit2 dashes (serializeDoc fs body) =
      [[], '\n' :: kvBlock fs, '\n' :: '\n' :: body] := by
  rw [serializeDoc_shape]
  have e1 : dashes ++ '\n' :: (kvBlock fs ++ (dashes ++ '\n' :: '\n' :: body)) =
      dashes ++ (('\n' :: kvBlock fs) ++ (dashes ++ '\n' :: '\n' :: body)) := by
    simp
  rw [e1]
  have h1 : splitFirst dashes (dashes ++
      (('\n' :: kvBlock fs) ++ (dashes ++ '\n' :: '\n' :: body))) =
      some ([], ('\n' :: kvBlock fs) ++ (dashes ++ '\n' :: '\n' :: body)) :=
    splitFirst_dashes_self _
  have h2 : splitFirst dashes
      (('\n' :: kvBlock fs) ++ (dashes ++ '\n' :: '\n' :: body)) =
      some ('\n' :: kvBlock fs, '\n' :: '\n' :: body) :=
    splitFirst_dashes_exact _ _ hd
  unfold pySplit2
  simp only [h1, h2]

theorem serialize_startsWith (fs : List (List Char × List Char))
    (body : List Char) :
    pyStartsWith dashes (serializeDoc fs body) = true := by
  rw [serializeDoc_shape]
  show List.isPrefixOf dashes (dashes ++ _) = true
  exact List.isPrefixOf_iff_prefix.mpr (List.prefix_append _ _)

theorem d3_header_of_good (fs : List (List Char × List Char))
    (hgk : ∀ p ∈ fs, GoodKey p.1) (hgv : ∀ p ∈ fs, GoodVal p.2) :
    d3 (('\n' :: kvBlock fs) ++ ['-', '-']) = false :=
  d3_header fs (fun p hp => (hgk p hp).2.2.1) (fun p hp => (hgv p hp).2.1)
    (fun p hp => (hgk p hp).2.1) (fun p hp => (hgv p hp).1)

theorem extract_frontmatter_serialize (fs : List (List Char × List Char))
    (body : List Char)
    (hgk : ∀ p ∈ fs, GoodKey p.1) (hgv : ∀ p ∈ fs, GoodVal p.2)
    (hnd : (fs.map Prod.fst).Nodup) :
    extract_frontmatter (serializeDoc fs body) = fs := by
  have hd := d3_header_of_good fs hgk hgv
  have hsw := serialize_startsWith fs body
  have hsp := pySplit2_serialize fs body hd
  simp only [extract_frontmatter, hsp]
  rw [if_neg (by simp [hsw])]
  cases fs with
  | nil => decide
  | cons p fs' =>
    have hL : pyStrip ('\n' :: kvBlock (p :: fs')) =
        pyStripR (kvBlock (p :: fs')) := by
      unfold pyStrip
      rw [pyStripL_cons_ws '\n' _ (by decide),
        pyStripL_kvBlock_cons p fs' (hgk p (by simp))]
    rw [hL]
    have hf := fold_kvBlock_strip (p :: fs') [] hgk hgv (by simp) hnd (by simp)
    simpa using hf

end RoundTripMain

/-- C4 counterexample: a heading marked with a single `#` is not found by
`extract_section`, although the claim's one-or-more-`#` rule promises the
following text. -/
theorem c4_counterexample :
    extract_section (str ("# Overview\nHello")) (str ("Overview")) = [] ∧
    str ("Hello") ≠ ([] : List Char) := by decide

/-- C4 amended: the pattern requires two `#` characters (matched anywhere,
case-insensitively) followed by whitespace and the heading text, and the
captured text stops at the next line starting with `##` of any level (or at
the end of text); under a heading line `## <name>` whose name starts with a
non-whitespace character and whose following text contains no `\n##`, the
stripped following text is returned; on the spec's example document,
`Overview` yields `Hello` and `Missing` yields the empty string, while a
single-`#` heading is not found and a deeper `###` heading also ends the
captured section. -/
theorem c4_extract_section (c0 : Char) (t body : List Char)
    (hw : isPyWS c0 = false)
    (hb : (splitFirst (str ("\n##")) body).isNone = true) :
    extract_section (str ("## ") ++ ((c0 :: t) ++ '\n' :: body)) (c0 :: t) =
      pyStrip body ∧
    extract_section (str ("## Overview\nHello\n## Next\nWorld"))
      (str ("Overview")) = str ("Hello") ∧
    extract_section (str ("## Overview\nHello\n## Next\nWorld"))
      (str ("Missing")) = [] ∧
    extract_section (str ("# Overview\nHello")) (str ("Overview")) = [] ∧
    extract_section (str ("## Overview\nHello\n### Sub\nMore"))
      (str ("Overview")) = str ("Hello") := by
  refine ⟨?_, by decide, by decide, by decide, by decide⟩
  have hcont : str ("## ") ++ ((c0 :: t) ++ '\n' :: body) =
      '#' :: '#' :: ' ' :: ((c0 :: t) ++ '\n' :: body) := rfl
  have htw : ((' ' :: ((c0 :: t) ++ '\n' :: body)).takeWhile isPyWS).length
      = 1 := by
    rw [show ((c0 :: t) ++ '\n' :: body) = c0 :: (t ++ '\n' :: body) from
      List.cons_append c0 t ('\n' :: body),
      List.takeWhile_cons_of_pos (by decide),
      List.takeWhile_cons_of_neg (by simp [hw])]
    rfl
  have hafter : (((c0 :: t) ++ '\n' :: body).drop (c0 :: t).length) =
      '\n' :: body := List.drop_left _ _
  have hmatch : ∃ m, matchSectionAt
      ('#' :: '#' :: ' ' :: ((c0 :: t) ++ '\n' :: body)) (c0 :: t) =
        some (lazyGroup (body.drop m)) ∧
      ∀ c ∈ body.take m, isPyWS c = true := by
    cases hr : lastNl (body.takeWhile isPyWS) with
    | none =>
      refine ⟨0, ?_, by simp⟩
      show tryWs ((' ' :: ((c0 :: t) ++ '\n' :: body)).takeWhile
        isPyWS).length (' ' :: ((c0 :: t) ++ '\n' :: body)) (c0 :: t) = _
      rw [htw, tryWs_one, if_pos (ciMatchFront_self_append _ _), hafter,
        List.takeWhile_cons_of_pos (by decide), lastNl_cons_nl, hr]
      rfl
    | some j =>
      refine ⟨j + 1, ?_, ?_⟩
      · show tryWs ((' ' :: ((c0 :: t) ++ '\n' :: body)).takeWhile
          isPyWS).length (' ' :: ((c0 :: t) ++ '\n' :: body)) (c0 :: t) = _
        rw [htw, tryWs_one, if_pos (ciMatchFront_self_append _ _), hafter,
          List.takeWhile_cons_of_pos (by decide), lastNl_cons_nl, hr]
        rfl
      · exact take_takeWhile_ws body (j + 1)
          (lastNl_lt_length _ _ hr)
  obtain ⟨m, hm, hwm⟩ := hmatch
  have hnoHH : (splitFirst (str ("\n##")) (body.drop m)).isNone = true :=
    splitFirst_isNone_drop _ _ _ hb
  have hsearch : searchSection
      ('#' :: '#' :: ' ' :: ((c0 :: t) ++ '\n' :: body)) (c0 :: t) =
        some (lazyGroup (body.drop m)) := by
    show (match matchSectionAt
        ('#' :: '#' :: ' ' :: ((c0 :: t) ++ '\n' :: body)) (c0 :: t) with
      | some g => some g
      | none => searchSection ('#' :: ' ' :: ((c0 :: t) ++ '\n' :: body))
          (c0 :: t)) = _
    rw [hm]
  rw [hcont]
  show (match searchSection
      ('#' :: '#' :: ' ' :: ((c0 :: t) ++ '\n' :: body)) (c0 :: t) with
    | some g => pyStrip g
    | none => []) = _
  rw [hsearch]
  show pyStrip (lazyGroup (body.drop m)) = _
  rw [pyStrip_lazyGroup _ hnoHH]
  show pyStripR (pyStripL (body.drop m)) = pyStripR (pyStripL body)
  rw [pyStripL_drop_ws _ _ hwm]

/-- Witness for `c4_extract_section` at a concrete document. -/
theorem c4_extract_section_witness :
    extract_section (str ("## ") ++ ((str ("Setup")) ++ '\n' ::
      str ("Step one.\nStep two."))) (str ("Setup")) =
      pyStrip (str ("Step one.\nStep two.")) ∧
    extract_section (str ("## Overview\nHello\n## Next\nWorld"))
      (str ("Overview")) = str ("Hello") := by
  have h := c4_extract_section 'S' (str ("etup"))
    (str ("Step one.\nStep two.")) (by decide) (by decide)
  exact ⟨h.1, h.2.1⟩

/-- C6 counterexample: the progress percentage is computed by
`int((closed / total) * 100)` in Python binary64 float arithmetic, which is
not the claimed exact rounded-down percentage for every count: with 29 of
100 task files closed the epic's progress is written as 28, although
`29 / 100 * 100` rounded down is 29. -/
theorem c6_counterexample :
    (icTaskFiles c6Dir).length = 100 ∧
    ((icTaskFiles c6Dir).filter isClosedTask).length = 29 ∧
    (update_epic_progress [(str ("github_issue_number"), .n 42)] c6Dir
        (str ("2025-01-02T03:04:05Z"))).map (mlookup (str ("progress"))) =
      some (some (.n 28)) ∧
    29 * 100 / 100 = 29 ∧ (28 : Nat) ≠ 29 := by decide

/-- C6 amended: closing an issue-backed task sets the task's `status` to
`closed` and its `updated` timestamp to the current time, and — provided the
parent epic carries a GitHub issue reference and has at least one task
file — rewrites the epic's `progress` to `int((closed / total) * 100)`
evaluated in binary64 float arithmetic (which equals the exact rounded-down
percentage at 1 of 3, namely 33, but not at every count) and its `updated`
timestamp to the current time. -/
theorem c6_issue_close_updates (tm em : Meta) (dir : List MdFile)
    (now : List Char) (hg : epicGate em = true)
    (ht : 0 < (icTaskFiles dir).length) :
    mlookup (str ("status")) (update_local_task_status tm now) =
      some (.s (str ("closed"))) ∧
    mlookup (str ("updated")) (update_local_task_status tm now) =
      some (.s now) ∧
    update_epic_progress em dir now =
      some (minsert (minsert em (str ("progress"))
        (.n (pyProgress ((icTaskFiles dir).filter isClosedTask).length
          (icTaskFiles dir).length)))
        (str ("updated")) (.s now)) ∧
    mlookup (str ("progress")) ((update_epic_progress em dir now).getD []) =
      some (.n (pyProgress ((icTaskFiles dir).filter isClosedTask).length
        (icTaskFiles dir).length)) ∧
    mlookup (str ("updated")) ((update_epic_progress em dir now).getD []) =
      some (.s now) ∧
    pyProgress 1 3 = 33 := by
  have hupd : update_epic_progress em dir now =
      some (minsert (minsert em (str ("progress"))
        (.n (pyProgress ((icTaskFiles dir).filter isClosedTask).length
          (icTaskFiles dir).length)))
        (str ("updated")) (.s now)) := by
    unfold update_epic_progress
    rw [if_neg (by simp [hg])]
    simp [ht]
  refine ⟨?_, ?_, hupd, ?_, ?_, by decide⟩
  · rw [update_local_task_status,
      mlookup_minsert_ne _ _ _ _ (by decide), mlookup_minsert_self]
  · rw [update_local_task_status, mlookup_minsert_self]
  · rw [hupd]
    simp only [Option.getD_some]
    rw [mlookup_minsert_ne _ _ _ _ (by decide), mlookup_minsert_self]
  · rw [hupd]
    simp only [Option.getD_some]
    rw [mlookup_minsert_self]

/-- Witness for `c6_issue_close_updates`: an epic with three task files of
which one is closed gets progress 33. -/
theorem c6_issue_close_updates_witness :
    mlookup (str ("progress"))
      ((update_epic_progress [(str ("github_issue_number"), .n 7)]
        [⟨str ("1.md"), some [(str ("status"), .s (str ("closed")))]⟩,
         ⟨str ("2.md"), some []⟩,
         ⟨str ("3.md"), some [(str ("status"), .s (str ("open")))]⟩]
        (str ("2025-01-02T03:04:05Z"))).getD []) =
      some (.n (pyProgress 1 3)) ∧
    pyProgress 1 3 = 33 := by
  have h := c6_issue_close_updates []
    [(str ("github_issue_number"), .n 7)]
    [⟨str ("1.md"), some [(str ("status"), .s (str ("closed")))]⟩,
     ⟨str ("2.md"), some []⟩,
     ⟨str ("3.md"), some [(str ("status"), .s (str ("open")))]⟩]
    (str ("2025-01-02T03:04:05Z")) (by decide) (by decide)
  exact ⟨by rw [h.2.2.2.1]; decide, h.2.2.2.2.2⟩

/-- C10: epic closing is gated and atomic on failure.  Any non-excluded
`.md` file that is unreadable, has no `status`, or has a `status` other than
`closed` is listed as open; while any open task exists, the close exits with
status 1 producing no update; a missing or unreadable `epic.md` also exits
with status 1; only with no open task does it produce the epic metadata with
`status: completed`, `progress: 100%`, and `updated`/`completed` set to the
current time. -/
theorem c10_epic_close_gated (dir : List MdFile) (em : Meta)
    (now : List Char) :
    (ecOpenTasks dir ≠ [] → epic_close_main dir (some em) now = .error 1) ∧
    epic_close_main dir none now = .error 1 ∧
    (ecOpenTasks dir = [] →
      epic_close_main dir (some em) now = .ok (update_epic_status em now)) ∧
    (∀ f ∈ dir, List.isSuffixOf (str (".md")) f.name = true →
      excludedNames.contains f.name = false →
      (∀ m, f.meta = some m →
        (match mlookup (str ("status")) m with
         | some v => v
         | none => MVal.s (str ("open"))) ≠ MVal.s (str ("closed"))) →
      f.name ∈ ecOpenTasks dir) ∧
    mlookup (str ("status")) (update_epic_status em now) =
      some (.s (str ("completed"))) ∧
    mlookup (str ("progress")) (update_epic_status em now) =
      some (.s (str ("100%"))) ∧
    mlookup (str ("updated")) (update_epic_status em now) = some (.s now) ∧
    mlookup (str ("completed")) (update_epic_status em now) = some (.s now) := by
  refine ⟨fun h => by simp [epic_close_main, h], rfl,
    fun h => by simp [epic_close_main, h],
    fun f hf hsuf hexc hopen => ?_, ?_, ?_, ?_, ?_⟩
  · unfold ecOpenTasks
    apply List.mem_filterMap.mpr
    refine ⟨f, List.mem_filter_of_mem hf (by simp [hsuf]; simpa using hexc), ?_⟩
    cases hm : f.meta with
    | none => rfl
    | some m => simp only [if_neg (hopen m hm)]
  · rw [update_epic_status, mlookup_minsert_ne _ _ _ _ (by decide),
      mlookup_minsert_ne _ _ _ _ (by decide),
      mlookup_minsert_ne _ _ _ _ (by decide), mlookup_minsert_self]
  · rw [update_epic_status, mlookup_minsert_ne _ _ _ _ (by decide),
      mlookup_minsert_ne _ _ _ _ (by decide), mlookup_minsert_self]
  · rw [update_epic_status, mlookup_minsert_ne _ _ _ _ (by decide),
      mlookup_minsert_self]
  · rw [update_epic_status, mlookup_minsert_self]

/-- Witness for `c10_epic_close_gated`: a directory with one still-open task
blocks the close with exit 1, and the same directory with every task closed
lets it complete. -/
theorem c10_epic_close_gated_witness :
    epic_close_main
      [⟨str ("epic.md"), some []⟩,
       ⟨str ("7.md"), some [(str ("status"), .s (str ("open")))]⟩]
      (some []) (str ("2025-01-02T03:04:05Z")) = .error 1 ∧
    epic_close_main
      [⟨str ("epic.md"), some []⟩,
       ⟨str ("7.md"), some [(str ("status"), .s (str ("closed")))]⟩]
      (some []) (str ("2025-01-02T03:04:05Z")) =
      .ok (update_epic_status [] (str ("2025-01-02T03:04:05Z"))) := by
  have h1 := c10_epic_close_gated
    [⟨str ("epic.md"), some []⟩,
     ⟨str ("7.md"), some [(str ("status"), .s (str ("open")))]⟩]
    [] (str ("2025-01-02T03:04:05Z"))
  have h2 := c10_epic_close_gated
    [⟨str ("epic.md"), some []⟩,
     ⟨str ("7.md"), some [(str ("status"), .s (str ("closed")))]⟩]
    [] (str ("2025-01-02T03:04:05Z"))
  exact ⟨h1.1 (by decide), h2.2.2.1 (by decide)⟩

theorem dlookup_fold_lines (k : List Char) (lines : List (List Char))
    (acc : List (List Char × List Char)) :
    dlookup k (lines.foldl
      (fun m line =>
        match splitFirst (str (":")) line with
        | some (k, v) => dinsert m (pyStrip k) (pyStrip v)
        | none => m) acc) =
      (lastColonValue k lines).or (dlookup k acc) := by
  induction lines generalizing acc with
  | nil => simp [lastColonValue, List.findSome?]
  | cons l ls ih =>
    simp only [List.foldl_cons, ih]
    have hrev : lastColonValue k (l :: ls) =
        (lastColonValue k ls).or (lineValueFor k l) := by
      unfold lastColonValue
      rw [List.reverse_cons, List.findSome?_append]
      cases hls : (ls.reverse.findSome? (lineValueFor k)) <;>
        cases hl : lineValueFor k l <;>
          simp [List.findSome?, Option.or, hl]
    rw [hrev, Option.or_assoc]
    congr 1
    unfold lineValueFor
    cases hsp : splitFirst (str (":")) l with
    | none => simp [hsp]
    | some kv =>
      obtain ⟨k', v⟩ := kv
      simp only [hsp]
      by_cases hk : pyStrip k' = k
      · rw [if_pos hk, hk, dlookup_dinsert_self]
        simp [Option.or]
      · rw [if_neg hk, dlookup_dinsert_ne _ _ _ _ (fun h => hk h.symm)]
        simp [Option.or]

/-- C9: `extract_frontmatter` is a total function on every input string (it
is defined by structural recursion, so it can raise nothing): it yields the
empty map when the text lacks the `---` prefix or splits into fewer than
three delimiter-separated parts, and otherwise a map in which a key's value
is the one of the LAST header line carrying that key, lines without a colon
contributing nothing. -/
theorem c9_extract_frontmatter_total (content : List Char) :
    (pyStartsWith dashes content = false → extract_frontmatter content = []) ∧
    (∀ b1, pySplit2 dashes content = [b1] → extract_frontmatter content = []) ∧
    (∀ b1 r1, pySplit2 dashes content = [b1, r1] →
      extract_frontmatter content = []) ∧
    (∀ b1 fm rest, pyStartsWith dashes content = true →
      pySplit2 dashes content = [b1, fm, rest] →
      ∀ k, dlookup k (extract_frontmatter content) =
        lastColonValue k (splitNl (pyStrip fm))) := by
  refine ⟨fun h => by simp [extract_frontmatter, h],
    fun b1 h => ?_, fun b1 r1 h => ?_, fun b1 fm rest hsw hsp k => ?_⟩
  · unfold extract_frontmatter
    split
    · rfl
    · rw [h]
  · unfold extract_frontmatter
    split
    · rfl
    · rw [h]
  · simp only [extract_frontmatter, hsp]
    rw [if_neg (by simp [hsw])]
    rw [dlookup_fold_lines]
    simp [dlookup]

/-- Witness for `c9_extract_frontmatter_total` at a concrete input with a
repeated key and a colon-free line. -/
theorem c9_extract_frontmatter_total_witness :
    dlookup (str ("a"))
        (extract_frontmatter (str ("---\na: b\na: c\nnocolon\n---\nrest"))) =
      lastColonValue (str ("a"))
        (splitNl (pyStrip (str ("\na: b\na: c\nnocolon\n")))) ∧
    lastColonValue (str ("a"))
        (splitNl (pyStrip (str ("\na: b\na: c\nnocolon\n")))) =
      some (str ("c")) :=
  ⟨(c9_extract_frontmatter_total
      (str ("---\na: b\na: c\nnocolon\n---\nrest"))).2.2.2
    [] (str ("\na: b\na: c\nnocolon\n")) (str ("\nrest"))
    (by decide) (by decide) (str ("a")), by decide⟩

/-- C1 counterexample: the claimed hypotheses (key without colon, value
without newline and without a literal `: `) admit the value `a---b`, yet the
round-trip fails on it, because the parser splits the serialized text on the
first `---` occurrence inside the value: fields `k: a---b` with body `x`
parse back as fields `k: a` with body `b\n---\n\nx`. -/
theorem c1_counterexample :
    noColon (str ("k")) = true ∧
    noNl (str ("a---b")) = true ∧
    (splitFirst (str (": ")) (str ("a---b"))).isNone = true ∧
    parseDoc (serializeDoc [(str ("k"), str ("a---b"))] (str ("x"))) =
      ([(str ("k"), str ("a"))], str ("b\n---\n\nx")) ∧
    parseDoc (serializeDoc [(str ("k"), str ("a---b"))] (str ("x"))) ≠
      ([(str ("k"), str ("a---b"))], str ("x")) := by decide

/-- C1 (amended): the frontmatter codec round-trip holds for every fields
map whose keys have no colon, no newline, no `---` occurrence and no
surrounding whitespace, whose values have no newline, no `---` occurrence
and no surrounding whitespace, and whose keys are pairwise distinct, and
for every body: parsing the serialized document yields back exactly the
fields map and the body. -/
theorem c1_roundtrip (fs : List (List Char × List Char)) (body : List Char)
    (hgk : ∀ p ∈ fs, GoodKey p.1) (hgv : ∀ p ∈ fs, GoodVal p.2)
    (hnd : (fs.map Prod.fst).Nodup) :
    parseDoc (serializeDoc fs body) = (fs, body) := by
  have hd := d3_header_of_good fs hgk hgv
  have hsw := serialize_startsWith fs body
  have hsp := pySplit2_serialize fs body hd
  unfold parseDoc
  rw [if_neg (by simp [hsw])]
  simp only [hsp]
  rw [extract_frontmatter_serialize fs body hgk hgv hnd]
  have hb : specBodyTrim ('\n' :: '\n' :: body) = body := by
    unfold specBodyTrim
    rw [if_pos (show pyStartsWith (str ("\n\n")) ('\n' :: '\n' :: body) = true by
      simp [pyStartsWith, List.isPrefixOf, str])]
    rfl
  rw [hb]

/-- Witness for `c1_roundtrip` at a concrete two-field map and body. -/
theorem c1_roundtrip_witness :
    parseDoc (serializeDoc
      [(str ("name"), str ("demo")), (str ("status"), str ("open"))]
      (str ("Body text"))) =
      ([(str ("name"), str ("demo")), (str ("status"), str ("open"))],
        str ("Body text")) :=
  c1_roundtrip
    [(str ("name"), str ("demo")), (str ("status"), str ("open"))]
    (str ("Body text")) (by decide) (by decide) (by decide)

/-- C5: the required-field check is a substring search, not a key lookup.
In this document the header has no `status` key (the parsed fields map has
no `status` entry), yet `status:` occurs inside the `description` value, so
`validate_frontmatter` passes for required field `status`: a false pass. -/
theorem c5_substring_false_pass :
    validate_frontmatter (str ("---\ndescription: the status: draft note\n---\nbody"))
      [str ("status")] = .ok ∧
    dlookup (str ("status"))
      (extract_frontmatter
        (str ("---\ndescription: the status: draft note\n---\nbody"))) =
      none ∧
    extract_frontmatter
        (str ("---\ndescription: the status: draft note\n---\nbody")) =
      [(str ("description"), str ("the status: draft note"))] := by decide

end CCPM
